import Mathlib

/-!
Verification development for the two-stage product-matching pipeline
(web scrapers for two storefronts, an embedding-based similarity matcher,
a batched external verdict aggregator, and a price-based result ranker).

Each definition is a shallow embedding of the corresponding function in the
repository sources (`product_scraper.py`, `similarity_calculator.py`,
`matcher_app.py`).  Machine floats carrying similarity scores and prices are
modelled as rationals; the external judgment service's response is modelled
as an explicit input; the browser/DOM layer is modelled as explicit page and
element data consumed by the orchestration loops.
-/

namespace PM

/-- A dataframe row of one scraped product as consumed by the similarity
pipeline in `matcher_app.py` (fields `id, title, price, image, url, sku`);
`price` is `none` when the value is missing or NaN after coercion. -/
structure Row where
  id : Nat
  title : String
  price : Option ℚ
  image : String
  url : String
  sku : String
deriving Repr, DecidableEq

/-- One stage-1 candidate entry as built by
`calculate_similarities_in_memory` in `matcher_app.py` (lines 443-450). -/
structure Candidate where
  target_id : String
  target_title : String
  target_price : Option ℚ
  target_image : String
  target_url : String
  similarity : ℚ
deriving Repr, DecidableEq

/-- The fixed similarity threshold `0.739465` used by the matcher. -/
def threshold : ℚ := 739465 / 1000000

/-- `prepare_text` from `matcher_app.py` line 489-490 and
`similarity_calculator.py` lines 14-16: the prefix depends only on the
platform of the title, not on the comparison direction. -/
def prepare_text (title : String) (platform : String) : String :=
  (if platform = "momo" then "query: " else "passage: ") ++ title

/-- The texts fed to the embedding model for the MOMO dataframe
(`matcher_app.py` line 416): every MOMO title is prepared with
platform `"momo"`. -/
def momoTexts (momo_df : List Row) : List String :=
  momo_df.map (fun r => prepare_text r.title "momo")

/-- The texts fed to the embedding model for the PChome dataframe
(`matcher_app.py` line 417): every PChome title is prepared with
platform `"pchome"`. -/
def pchomeTexts (pchome_df : List Row) : List String :=
  pchome_df.map (fun r => prepare_text r.title "pchome")

/-- Building one candidate entry from a target row and its similarity
score (`matcher_app.py` lines 443-450). -/
def mkCandidate (r : Row) (score : ℚ) : Candidate :=
  ⟨toString r.id, r.title, r.price, r.image, r.url, score⟩

/-- Descending-by-similarity comparison used for
`matches.sort(key=lambda x: x['similarity'], reverse=True)`. -/
def descBySim (a b : Candidate) : Prop := b.similarity ≤ a.similarity

instance : DecidableRel descBySim := fun a b =>
  inferInstanceAs (Decidable (b.similarity ≤ a.similarity))

instance : IsTotal Candidate descBySim :=
  ⟨fun a b => le_total b.similarity a.similarity⟩

instance : IsTrans Candidate descBySim :=
  ⟨fun _ _ _ hab hbc => le_trans hbc hab⟩

/-- The inner loop `for pchome_idx, score in enumerate(cos_similarities):
if score >= threshold: matches.append(...)` (`matcher_app.py` lines
440-450), enumerating target rows from index `j`. -/
def scanCandidates (f : Nat → ℚ) : List Row → Nat → List Candidate
  | [], _ => []
  | r :: rs, j =>
    if threshold ≤ f j then mkCandidate r (f j) :: scanCandidates f rs (j + 1)
    else scanCandidates f rs (j + 1)

/-- The per-source-product candidate list: collect all targets at or above
`threshold`, then sort descending by similarity (`matcher_app.py` lines
439-453). -/
def stage1Matches (sim2 : Nat → Nat → ℚ) (tgt : List Row) (i : Nat) :
    List Candidate :=
  List.insertionSort descBySim (scanCandidates (sim2 i) tgt 0)

/-- One direction branch of `calculate_similarities_in_memory`
(`matcher_app.py` lines 427-454 and 455-482): enumerate the source rows
from index `i` and key the result by the stringified source id. -/
def branchScan (sim2 : Nat → Nat → ℚ) (tgt : List Row) :
    List Row → Nat → List (String × List Candidate)
  | [], _ => []
  | r :: rs, i =>
    (toString r.id, stage1Matches sim2 tgt i) :: branchScan sim2 tgt rs (i + 1)

/-- `calculate_similarities_in_memory` from `matcher_app.py` lines 402-487.
`sim i j` abstracts the cosine similarity between the embedding of MOMO row
`i` and PChome row `j`; the `pchome_to_momo` branch evaluates the same
matrix with the roles swapped. -/
def calculate_similarities_in_memory (sim : Nat → Nat → ℚ)
    (momo_df pchome_df : List Row) (direction : String) :
    List (String × List Candidate) :=
  if momo_df = [] ∨ pchome_df = [] then []
  else if direction = "momo_to_pchome" then
    branchScan sim pchome_df momo_df 0
  else
    branchScan (fun i j => sim j i) momo_df pchome_df 0

/-- A verdict entry `{is_match, confidence, reasoning}` as parsed from the
judgment service response (`matcher_app.py`). -/
structure Verdict where
  is_match : Bool
  confidence : String
  reasoning : String
deriving Repr, DecidableEq

/-- The deterministic fallback verdict used by `gemini_verify_batch`. -/
def fallbackVerdict (reason : String) : Verdict :=
  ⟨false, "low", reason⟩

/-- One pair sent to the judgment service (`matcher_app.py` lines
1119-1128). -/
structure MatchPair where
  momo_title : String
  momo_price : ℚ
  pchome_title : String
  pchome_price : ℚ
  similarity : ℚ
deriving Repr, DecidableEq

/-- `gemini_verify_batch` from `matcher_app.py` lines 552-658.  The external
request/parse step is modelled as an explicit `response` input: `.error e`
covers a raised request error or a parse failure (both land in the
`except` clause), `.ok results` is a successfully parsed verdict list. -/
def gemini_verify_batch (match_pairs : List MatchPair)
    (response : Except String (List Verdict)) : List Verdict :=
  if match_pairs = [] then []
  else
    match response with
    | Except.error e => match_pairs.map (fun _ => fallbackVerdict ("API 錯誤: " ++ e))
    | Except.ok results =>
      if results.length ≠ match_pairs.length then
        match_pairs.map (fun _ => fallbackVerdict "批次處理錯誤")
      else results

/-- One entry of `verified_results` as built by the caller
(`matcher_app.py` lines 1141-1146): `{'match': m, 'result': r,
'is_match': r.get('is_match', False)}`. -/
structure VerifiedResult where
  match_item : Candidate
  result : Verdict
  is_match : Bool
deriving Repr, DecidableEq

/-- The caller's positional merge `for match, result in
zip(candidates_to_verify, all_results)` (`matcher_app.py` lines
1141-1146). -/
def mergeVerified (cands : List Candidate) (results : List Verdict) :
    List VerifiedResult :=
  (cands.zip results).map (fun p => ⟨p.1, p.2, p.2.is_match⟩)

/-- `MAX_CANDIDATES_PER_CALL` from `matcher_app.py` line 1112. -/
def MAX_CANDIDATES_PER_CALL : Nat := 50

/-- The cap applied in `show_comparison_dialog` (`matcher_app.py` lines
1114-1116): truncate to the first 50 candidates and flag the warning that
is shown to the user exactly in that case. -/
def capCandidates (cands : List Candidate) : List Candidate × Bool :=
  if MAX_CANDIDATES_PER_CALL < cands.length then
    (cands.take MAX_CANDIDATES_PER_CALL, true)
  else (cands, false)

/-- Building `all_pairs` from the (capped) candidate list
(`matcher_app.py` lines 1119-1128); a missing target price becomes `0`. -/
def buildPairs (sourceTitle : String) (sourcePrice : ℚ)
    (cands : List Candidate) : List MatchPair :=
  cands.map (fun m =>
    ⟨sourceTitle, sourcePrice, m.target_title, m.target_price.getD 0,
      m.similarity⟩)

/-- Auxiliary: filtering with a predicate that some member fails strictly
shrinks the list. -/
theorem length_filter_lt_of_mem {α : Type} {l : List α} {p : α → Bool} {x : α}
    (hx : x ∈ l) (hpx : p x = false) : (l.filter p).length < l.length := by
  induction l with
  | nil => cases hx
  | cons a l ih =>
    rcases List.mem_cons.mp hx with h | h
    · subst h
      simp only [List.filter_cons, hpx, Bool.false_eq_true, if_false,
        List.length_cons]
      exact Nat.lt_succ_of_le (List.length_filter_le _ _)
    · by_cases hpa : p a = true
      · simp only [List.filter_cons, hpa, if_true, List.length_cons]
        exact Nat.succ_lt_succ (ih h)
      · rw [Bool.not_eq_true] at hpa
        simp only [List.filter_cons, hpa, Bool.false_eq_true, if_false,
          List.length_cons]
        exact Nat.lt_succ_of_lt (ih h)

/-- Key used by the result ranker: the target price of the underlying
candidate, with a missing or NaN price treated as positive infinity
(`matcher_app.py` lines 1202-1208). -/
def itemKey (x : VerifiedResult) : WithTop ℚ :=
  match x.match_item.target_price with
  | none => ⊤
  | some v => (v : WithTop ℚ)

/-- The inner `quicksort` of `quicksort_by_price` (`matcher_app.py` lines
1198-1210): pivot at the middle index, partition into strictly-below,
equal and strictly-above price keys, recurse on the outer parts. -/
def quicksortArr (arr : List VerifiedResult) : List VerifiedResult :=
  if h : arr.length ≤ 1 then arr
  else
    let pivot := arr.get ⟨arr.length / 2, by omega⟩
    let pp := itemKey pivot
    quicksortArr (arr.filter (fun x => decide (itemKey x < pp))) ++
      arr.filter (fun x => decide (itemKey x = pp)) ++
      quicksortArr (arr.filter (fun x => decide (pp < itemKey x)))
termination_by arr.length
decreasing_by
  · exact length_filter_lt_of_mem (arr.get_mem (arr.length / 2) (by omega))
      (by simp [pp, pivot])
  · exact length_filter_lt_of_mem (arr.get_mem (arr.length / 2) (by omega))
      (by simp [pp, pivot])

/-- `quicksort_by_price` from `matcher_app.py` lines 1188-1212: separate
matched from unmatched items, sort each part by price, matched first. -/
def quicksort_by_price (items : List VerifiedResult) : List VerifiedResult :=
  if items.length ≤ 1 then items
  else
    quicksortArr (items.filter (fun x => x.is_match)) ++
      quicksortArr (items.filter (fun x => !x.is_match))

/-- A product record as returned by the scrapers (`product_scraper.py`,
fields `id, title, price, image_url, url, platform, sku`). -/
structure ScrapedProduct where
  id : Nat
  title : String
  price : Nat
  image_url : String
  url : String
  platform : String
  sku : String
deriving Repr, DecidableEq

/-- Longest leading digit run of a character list. -/
def takeDigits : List Char → List Char
  | [] => []
  | c :: cs => if c.isDigit then c :: takeDigits cs else []

/-- Does the text starting here match the momo product-id pattern: the
literal marker followed by at least one digit?  Returns the digit group. -/
def icodeAt (cs : List Char) : Option String :=
  match cs with
  | 'i' :: '_' :: 'c' :: 'o' :: 'd' :: 'e' :: '=' :: rest =>
    let ds := takeDigits rest
    if ds = [] then none else some (String.mk ds)
  | _ => none

/-- Leftmost match of the momo product-id pattern in a character list (the
model of the regex search in `product_scraper.py` line 376). -/
def findICode : List Char → Option String
  | [] => none
  | c :: cs =>
    match icodeAt (c :: cs) with
    | some s => some s
    | none => findICode cs

/-- Trailing occurrences of a character removed (the model of a
right-strip). -/
def dropTrailing (c : Char) (cs : List Char) : List Char :=
  (cs.reverse.dropWhile (fun x => decide (x = c))).reverse

/-- Split on a separator character (the model of a single-character string
split: an empty input yields one empty field). -/
def splitChar (c : Char) : List Char → List (List Char)
  | [] => [[]]
  | x :: xs =>
    if x = c then [] :: splitChar c xs
    else
      match splitChar c xs with
      | [] => [[x]]
      | h :: t => (x :: h) :: t

/-- Remainder after the leftmost occurrence of a pattern, when present. -/
def findSub (pat : List Char) : List Char → Option (List Char)
  | [] => none
  | c :: cs =>
    if pat.isPrefixOf (c :: cs) then some ((c :: cs).drop pat.length)
    else findSub pat cs

/-- momo sku derivation from a url (`product_scraper.py` lines 374-387):
first the product-id query parameter, then the last path segment with any
query suffix and extension stripped. -/
def deriveSkuFromUrl (url : String) : String :=
  match findICode url.data with
  | some code => code
  | none =>
    let stripped := dropTrailing '/' url.data
    let lastPart := (splitChar '/' stripped).getLastD []
    let lastPart2 := lastPart.takeWhile (fun c => decide (c ≠ '?'))
    String.mk (lastPart2.takeWhile (fun c => decide (c ≠ '.')))

/-- The data extracted from one momo listing element before the sku and url
fallbacks are applied; `hiddenSku` is the value of the hidden product-id
input when present. -/
structure MomoElemData where
  title : String
  price : Nat
  url : String
  hiddenSku : Option String
  image_url : String
deriving Repr, DecidableEq

/-- A fully-resolved candidate record for the acceptance check. -/
structure RawItem where
  title : String
  price : Nat
  url : String
  sku : String
  image_url : String
deriving Repr, DecidableEq

/-- The momo sku/url fallback chain (`product_scraper.py` lines 364-390):
hidden input value, else derive the sku from the url; synthesize the url
from the sku when the url is missing. -/
def momoMakeRaw (e : MomoElemData) : RawItem :=
  let sku0 := e.hiddenSku.getD ""
  let sku := if sku0 = "" ∧ e.url ≠ "" then deriveSkuFromUrl e.url else sku0
  let url :=
    if e.url = "" ∧ sku ≠ "" then
      "https://www.momoshop.com.tw/goods/GoodsDetail.jsp?i_code=" ++ sku
    else e.url
  ⟨e.title, e.price, url, sku, e.image_url⟩

/-- The scrape orchestrator's mutable state: collected products, the set of
seen skus, and the sequence-local id counter. -/
structure ScrapeState where
  products : List ScrapedProduct
  seenSkus : List String
  productId : Nat
deriving Repr, DecidableEq

/-- Initial orchestrator state. -/
def initState : ScrapeState := ⟨[], [], 1⟩

/-- momo duplicate check (`product_scraper.py` lines 470-474): a non-empty
sku already seen, or else an exact url match against collected products. -/
def momoIsDup (st : ScrapeState) (r : RawItem) : Bool :=
  (decide (r.sku ≠ "") && decide (r.sku ∈ st.seenSkus)) ||
    decide (r.url ∈ st.products.map (fun p => p.url))

/-- momo record acceptance (`product_scraper.py` lines 488-500). -/
def momoAccept (st : ScrapeState) (r : RawItem) : ScrapeState :=
  { products :=
      st.products ++ [⟨st.productId, r.title, r.price, r.image_url, r.url, "momo", r.sku⟩]
    seenSkus := if r.sku ≠ "" then r.sku :: st.seenSkus else st.seenSkus
    productId := st.productId + 1 }

/-- The momo per-page element loop (`product_scraper.py` lines 236-518):
an element is `none` when parsing skipped it (empty text, missing title or
price, exception).  Returns the new state and the page's count of newly
accepted products; stops early on reaching `maxProducts` or after 10
consecutive duplicates. -/
def momoElemLoop (maxProducts : Nat) :
    List (Option MomoElemData) → ScrapeState → Nat → Nat → ScrapeState × Nat
  | [], st, _, pageCount => (st, pageCount)
  | e :: rest, st, consDup, pageCount =>
    if maxProducts ≤ st.products.length then (st, pageCount)
    else
      match e with
      | none => momoElemLoop maxProducts rest st consDup pageCount
      | some d =>
        if (momoMakeRaw d).title ≠ "" ∧ 0 < (momoMakeRaw d).price ∧
            (momoMakeRaw d).url ≠ "" then
          if momoIsDup st (momoMakeRaw d) then
            if 10 ≤ consDup + 1 then (st, pageCount)
            else momoElemLoop maxProducts rest st (consDup + 1) pageCount
          else momoElemLoop maxProducts rest (momoAccept st (momoMakeRaw d)) 0
            (pageCount + 1)
        else momoElemLoop maxProducts rest st consDup pageCount

/-- One fetched momo results page: the displayed total-count reading (when
the element was found) and the listing elements. -/
structure MomoPage where
  totalCount : Option Nat
  elements : List (Option MomoElemData)
deriving Repr, DecidableEq

/-- The momo total-count early stop (`product_scraper.py` lines 170-193). -/
def momoTotalStop (st : ScrapeState) : Option Nat → Bool
  | some n => decide (n = 0) || decide (n ≤ st.products.length)
  | none => false

/-- The momo page loop (`product_scraper.py` lines 98-564).  The external
site is modelled as the list of pages the browser would serve; an exhausted
list corresponds to a page-load failure, which returns the collected
products. -/
def momoPageLoop (maxProducts : Nat) :
    List MomoPage → ScrapeState → Nat → Nat → List ScrapedProduct
  | [], st, _, _ => st.products
  | pg :: rest, st, page, consEmpty =>
    if maxProducts ≤ st.products.length then st.products
    else if momoTotalStop st pg.totalCount then st.products
    else if pg.elements = [] then st.products
    else if (momoElemLoop maxProducts pg.elements st 0 0).2 = 0 then
      if page = 1 ∧ pg.elements.length < 10 then
        (momoElemLoop maxProducts pg.elements st 0 0).1.products
      else if pg.elements.length < 10 then
        (momoElemLoop maxProducts pg.elements st 0 0).1.products
      else if 1 < page ∧ 10 ≤ pg.elements.length then
        (momoElemLoop maxProducts pg.elements st 0 0).1.products
      else if 2 ≤ consEmpty + 1 then
        (momoElemLoop maxProducts pg.elements st 0 0).1.products
      else if (momoElemLoop maxProducts pg.elements st 0 0).1.products.length <
          maxProducts then
        momoPageLoop maxProducts rest
          (momoElemLoop maxProducts pg.elements st 0 0).1 (page + 1)
          (consEmpty + 1)
      else (momoElemLoop maxProducts pg.elements st 0 0).1.products
    else if (momoElemLoop maxProducts pg.elements st 0 0).1.products.length <
        maxProducts then
      momoPageLoop maxProducts rest
        (momoElemLoop maxProducts pg.elements st 0 0).1 (page + 1) 0
    else (momoElemLoop maxProducts pg.elements st 0 0).1.products

/-- `fetch_products_for_momo` (`product_scraper.py` lines 28-593) with the
default absent cancellation callback. -/
def fetch_products_for_momo (maxProducts : Nat) (pages : List MomoPage) :
    List ScrapedProduct :=
  momoPageLoop maxProducts pages initState 1 0

/-- The data extracted from one PChome listing element; `href` is the raw
link attribute before normalization. -/
structure PchomeElemData where
  title : String
  href : String
  price : Nat
  image_url : String
deriving Repr, DecidableEq

/-- PChome url normalization (`product_scraper.py` lines 776-778). -/
def pchomeNormalizeUrl (href : String) : String :=
  if "https://".data.isPrefixOf href.data then href
  else "https://24h.pchome.com.tw" ++ href

/-- PChome sku derivation (`product_scraper.py` lines 780-781): the url
segment after the first product-path marker, up to the first question
mark; empty when the marker is absent. -/
def pchomeSkuFromUrl (url : String) : String :=
  match findSub "/prod/".data url.data with
  | none => ""
  | some rest => String.mk (rest.takeWhile (fun c => decide (c ≠ '?')))

/-- PChome duplicate check (`product_scraper.py` lines 969-973). -/
def pchomeIsDup (st : ScrapeState) (sku url : String) : Bool :=
  decide (sku ∈ st.seenSkus) ||
    decide (url ∈ st.products.map (fun p => p.url))

/-- PChome record acceptance (`product_scraper.py` lines 986-997). -/
def pchomeAccept (st : ScrapeState) (title : String) (price : Nat)
    (image url sku : String) : ScrapeState :=
  { products :=
      st.products ++ [⟨st.productId, title, price, image, url, "pchome", sku⟩]
    seenSkus := sku :: st.seenSkus
    productId := st.productId + 1 }

/-- The PChome per-page element loop (`product_scraper.py` lines 764-1009);
acceptance additionally requires a non-empty sku. -/
def pchomeElemLoop (maxProducts : Nat) :
    List (Option PchomeElemData) → ScrapeState → Nat → Nat → ScrapeState × Nat
  | [], st, _, pageCount => (st, pageCount)
  | e :: rest, st, consDup, pageCount =>
    if maxProducts ≤ st.products.length then (st, pageCount)
    else
      match e with
      | none => pchomeElemLoop maxProducts rest st consDup pageCount
      | some d =>
        if d.title ≠ "" ∧ 0 < d.price ∧ pchomeNormalizeUrl d.href ≠ "" ∧
            pchomeSkuFromUrl (pchomeNormalizeUrl d.href) ≠ "" then
          if pchomeIsDup st (pchomeSkuFromUrl (pchomeNormalizeUrl d.href))
              (pchomeNormalizeUrl d.href) then
            if 10 ≤ consDup + 1 then (st, pageCount)
            else pchomeElemLoop maxProducts rest st (consDup + 1) pageCount
          else
            pchomeElemLoop maxProducts rest
              (pchomeAccept st d.title d.price d.image_url
                (pchomeNormalizeUrl d.href)
                (pchomeSkuFromUrl (pchomeNormalizeUrl d.href))) 0
              (pageCount + 1)
        else pchomeElemLoop maxProducts rest st consDup pageCount

/-- The PChome page loop (`product_scraper.py` lines 708-1061); pages are
the element lists the browser would serve per pagination step, exhaustion
standing for a timeout or a missing next-page button. -/
def pchomePageLoop (maxProducts : Nat) :
    List (List (Option PchomeElemData)) → ScrapeState → Nat → Nat →
      List ScrapedProduct
  | [], st, _, _ => st.products
  | els :: rest, st, page, consEmpty =>
    if maxProducts ≤ st.products.length then st.products
    else if (pchomeElemLoop maxProducts els st 0 0).2 = 0 then
      if page = 1 ∧ els.length < 10 then
        (pchomeElemLoop maxProducts els st 0 0).1.products
      else if els.length < 10 then
        (pchomeElemLoop maxProducts els st 0 0).1.products
      else if 1 < page ∧ 10 ≤ els.length then
        (pchomeElemLoop maxProducts els st 0 0).1.products
      else if 2 ≤ consEmpty + 1 then
        (pchomeElemLoop maxProducts els st 0 0).1.products
      else if maxProducts ≤ (pchomeElemLoop maxProducts els st 0 0).1.products.length then
        (pchomeElemLoop maxProducts els st 0 0).1.products
      else pchomePageLoop maxProducts rest
        (pchomeElemLoop maxProducts els st 0 0).1 (page + 1) (consEmpty + 1)
    else if maxProducts ≤ (pchomeElemLoop maxProducts els st 0 0).1.products.length then
      (pchomeElemLoop maxProducts els st 0 0).1.products
    else pchomePageLoop maxProducts rest
      (pchomeElemLoop maxProducts els st 0 0).1 (page + 1) 0

/-- `fetch_products_for_pchome` (`product_scraper.py` lines 596-1089) with
the default absent cancellation callback. -/
def fetch_products_for_pchome (maxProducts : Nat)
    (pages : List (List (Option PchomeElemData))) : List ScrapedProduct :=
  pchomePageLoop maxProducts pages initState 1 0

/-- All maximal digit runs of a character list, folded into numbers (the
model of a global regex findall with a digits pattern). -/
def digitRunsAux : List Char → Option Nat → List Nat
  | [], none => []
  | [], some n => [n]
  | c :: cs, acc =>
    if c.isDigit then
      digitRunsAux cs (some (acc.getD 0 * 10 + (c.toNat - 48)))
    else
      match acc with
      | none => digitRunsAux cs none
      | some n => n :: digitRunsAux cs none

/-- All maximal digit runs of a string, as numbers. -/
def digitRuns (s : String) : List Nat := digitRunsAux s.data none

/-- The numeric candidates momo considers in one matched price text
(`product_scraper.py` lines 312-315): digit runs after comma removal,
restricted to values above 10. -/
def momoCandidates (t : String) : List Nat :=
  (digitRuns (String.mk (t.data.filter (fun c => c ≠ ',')))).filter
    (fun n => 10 < n)

/-- momo price extraction from one matched price text
(`product_scraper.py` lines 309-317 and the fallback at lines 324-334):
remove commas, collect the digit runs, keep values above 10, and take the
largest; 0 when no candidate survives. -/
def momoPriceFromText (t : String) : Nat :=
  match momoCandidates t with
  | [] => 0
  | h :: rest => rest.foldl Nat.max h

/-- Minimum of a list of naturals, 0 when empty. -/
def listMin : List Nat → Nat
  | [] => 0
  | h :: t => t.foldl Nat.min h

/-- Maximum of a list of naturals, 0 when empty. -/
def listMax : List Nat → Nat
  | [] => 0
  | h :: t => t.foldl Nat.max h

/-- PChome installment marker detection (`product_scraper.py` line 799):
the text contains one of the keyword markers. -/
def pchomeInstallmentMarked (t : String) : Bool :=
  (findSub "期".data t.data).isSome || (findSub "x".data t.data).isSome ||
    (findSub "X".data t.data).isSome || (findSub "/".data t.data).isSome ||
    (findSub "每期".data t.data).isSome

/-- First number of a PChome price text after removing commas, currency
signs and the unit character (`product_scraper.py` lines 801-816). -/
def pchomeFirstNumber (t : String) : Option Nat :=
  (digitRuns (String.mk
    (t.data.filter (fun c => !(c = ',' || c = '$' || c = '元'))))).head?

/-- PChome per-block candidate collection (`product_scraper.py` lines
793-818): keyword-marked blocks feed the installment list, the rest feed
the price list; both only accept values in the plausibility range. -/
def pchomeCollect : List String → List Nat × List Nat
  | [] => ([], [])
  | t :: rest =>
    let tailRes := pchomeCollect rest
    match pchomeFirstNumber t with
    | none => tailRes
    | some p =>
      if 100 < p ∧ p < 10000000 then
        if pchomeInstallmentMarked t then (tailRes.1, p :: tailRes.2)
        else (p :: tailRes.1, tailRes.2)
      else tailRes

/-- The PChome price-selection step (`product_scraper.py` lines 854-877):
a single candidate is taken as is; otherwise the minimum is taken unless it
is a recorded installment amount, in which case the minimum of the
non-installment candidates is taken, falling back to the maximum when every
candidate is an installment amount. -/
def pchomeSelectPrice (prices installment_prices : List Nat) : Nat :=
  match prices with
  | [] => 0
  | [p] => p
  | _ :: _ :: _ =>
    let candidate := listMin prices
    if installment_prices ≠ [] ∧ candidate ∈ installment_prices then
      let valid := prices.filter (fun p => !(installment_prices.contains p))
      match valid with
      | [] => listMax prices
      | _ :: _ => listMin valid
    else candidate

/-- The PChome price extraction along the primary strategy
(`product_scraper.py` lines 793-877): collect candidates per price block,
then apply the selection step.  The two fallback strategies (full-text
lines and the sale-price element) only refill the price list when this
collection found none and feed the same selection step. -/
def pchomeExtractPrice (blocks : List String) : Nat :=
  let collected := pchomeCollect blocks
  pchomeSelectPrice collected.1 collected.2

/-- The price-selection rule exactly as claim C7 states it for a matched
price text: collect the digit runs, discard values at most 10, exclude the
recognized installment amounts, take the minimum of the remainder. -/
def claimC7Price (t : String) (installment_amounts : List Nat) : Nat :=
  let remaining := (momoCandidates t).filter
    (fun n => !(installment_amounts.contains n))
  listMin remaining

/-- The prepared texts of the source side of a comparison direction: the
pipeline prepares MOMO titles with platform "momo" and PChome titles with
platform "pchome" (`matcher_app.py` lines 416-417) in both directions, and
the source side is the MOMO set exactly when the direction is
momo_to_pchome (`matcher_app.py` lines 427-482). -/
def sourceTexts (momo_df pchome_df : List Row) (direction : String) :
    List String :=
  if direction = "momo_to_pchome" then momoTexts momo_df
  else pchomeTexts pchome_df

/-- The prepared texts of the target side of a comparison direction. -/
def targetTexts (momo_df pchome_df : List Row) (direction : String) :
    List String :=
  if direction = "momo_to_pchome" then pchomeTexts pchome_df
  else momoTexts momo_df

/-- A judged item with the given target price and verdict flag, used for the
concrete ranking scenario of the specification. -/
def exItem (p : ℚ) (m : Bool) : VerifiedResult :=
  ⟨⟨"t", "title", some p, "", "", 0⟩, ⟨m, "high", ""⟩, m⟩

/-- The concrete ranking scenario input from the specification: prices
500 (matched), 100 (unmatched), 50 (matched), 9999 (unmatched). -/
def c4ExampleInput : List VerifiedResult :=
  [exItem 500 true, exItem 100 false, exItem 50 true, exItem 9999 false]

/-! ## Verdict aggregator: fallback totality and order correlation -/

/-- Auxiliary: every entry of a constant fallback map has the fallback
fields. -/
theorem mem_map_fallback {pairs : List MatchPair} {reason : String}
    {v : Verdict} (hv : v ∈ pairs.map (fun _ => fallbackVerdict reason)) :
    v.is_match = false ∧ v.confidence = "low" := by
  rcases List.mem_map.mp hv with ⟨p, _, rfl⟩
  exact ⟨rfl, rfl⟩

/-- C2: for a non-empty candidate batch, a raised request error, a parse
failure, or a parsed list of the wrong length makes `gemini_verify_batch`
return exactly one fallback verdict (`is_match = false`,
`confidence = "low"`) per input candidate — the fallback is all-or-nothing
for the batch, never applied to only some positions. -/
theorem c2_fallback_totality (match_pairs : List MatchPair)
    (response : Except String (List Verdict))
    (hne : match_pairs ≠ [])
    (hfail : (∃ e, response = Except.error e) ∨
      ∃ rs, response = Except.ok rs ∧ rs.length ≠ match_pairs.length) :
    (gemini_verify_batch match_pairs response).length = match_pairs.length ∧
      ∀ v ∈ gemini_verify_batch match_pairs response,
        v.is_match = false ∧ v.confidence = "low" := by
  rcases hfail with ⟨e, rfl⟩ | ⟨rs, rfl, hlen⟩
  · simp only [gemini_verify_batch, if_neg hne]
    exact ⟨List.length_map _ _, fun v hv => mem_map_fallback hv⟩
  · simp only [gemini_verify_batch, if_neg hne, if_pos hlen]
    exact ⟨List.length_map _ _, fun v hv => mem_map_fallback hv⟩

/-- Witness for C2: one candidate pair, a raised service error. -/
theorem c2_fallback_totality_witness :
    (([(⟨"a", 0, "b", 0, 0⟩ : MatchPair)] : List MatchPair) ≠ [] ∧
        (∃ e, (Except.error "boom" : Except String (List Verdict)) =
          Except.error e)) ∧
      (gemini_verify_batch [⟨"a", 0, "b", 0, 0⟩]
          (Except.error "boom")).length = 1 ∧
      ∀ v ∈ gemini_verify_batch [⟨"a", 0, "b", 0, 0⟩] (Except.error "boom"),
        v.is_match = false ∧ v.confidence = "low" := by
  refine ⟨⟨by simp, ⟨"boom", rfl⟩⟩, ?_⟩
  exact c2_fallback_totality [⟨"a", 0, "b", 0, 0⟩] (Except.error "boom")
    (by simp) (Or.inl ⟨"boom", rfl⟩)

/-- Auxiliary: the positional content of the caller's zip merge. -/
theorem mergeVerified_getElem :
    ∀ (cands : List Candidate) (results : List Verdict) (i : Nat)
      (c : Candidate) (v : Verdict),
      cands[i]? = some c → results[i]? = some v →
      (mergeVerified cands results)[i]? = some ⟨c, v, v.is_match⟩
  | [], _, i, _, _, hc, _ => by simp at hc
  | _ :: _, [], i, _, _, _, hv => by simp at hv
  | c0 :: ct, v0 :: vt, 0, c, v, hc, hv => by
    simp only [List.getElem?_cons_zero, Option.some.injEq] at hc hv
    subst hc; subst hv
    simp [mergeVerified]
  | c0 :: ct, v0 :: vt, i + 1, c, v, hc, hv => by
    simp only [List.getElem?_cons_succ] at hc hv
    have h := mergeVerified_getElem ct vt i c v hc hv
    simpa [mergeVerified, List.zip_cons_cons] using h

/-- C3: when the service response parses to exactly one verdict per
candidate, the aggregator returns that parsed list unchanged — the verdict
at position `i` is the one the service produced for pair `i` — and the
caller's zip merge pairs verdict `i` with candidate `i`. -/
theorem c3_order_correlation (match_pairs : List MatchPair)
    (rs : List Verdict) (cands : List Candidate)
    (hlen : rs.length = match_pairs.length) :
    gemini_verify_batch match_pairs (Except.ok rs) = rs ∧
      ∀ (i : Nat) (c : Candidate) (v : Verdict),
        cands[i]? = some c → rs[i]? = some v →
        (mergeVerified cands rs)[i]? =
          some (⟨c, v, v.is_match⟩ : VerifiedResult) := by
  constructor
  · by_cases hne : match_pairs = []
    · subst hne
      have : rs = [] := List.length_eq_zero.mp hlen
      subst this
      rfl
    · simp only [gemini_verify_batch, if_neg hne, if_neg (not_not_intro hlen)]
  · exact fun i c v hc hv => mergeVerified_getElem cands rs i c v hc hv

/-- Witness for C3: one candidate, one verdict, matching lengths. -/
theorem c3_order_correlation_witness :
    ([(⟨true, "high", "ok"⟩ : Verdict)] : List Verdict).length =
        ([(⟨"a", 0, "b", 0, 0⟩ : MatchPair)] : List MatchPair).length ∧
      (gemini_verify_batch [⟨"a", 0, "b", 0, 0⟩]
          (Except.ok [⟨true, "high", "ok"⟩]) = [⟨true, "high", "ok"⟩] ∧
        ∀ (i : Nat) (c : Candidate) (v : Verdict),
          ([(⟨"1", "t", some 5, "", "", 1⟩ : Candidate)] : List Candidate)[i]? =
              some c →
            ([(⟨true, "high", "ok"⟩ : Verdict)] : List Verdict)[i]? = some v →
            (mergeVerified [⟨"1", "t", some 5, "", "", 1⟩]
                [⟨true, "high", "ok"⟩])[i]? =
              some (⟨c, v, v.is_match⟩ : VerifiedResult)) :=
  ⟨rfl, c3_order_correlation [⟨"a", 0, "b", 0, 0⟩] [⟨true, "high", "ok"⟩]
    [⟨"1", "t", some 5, "", "", 1⟩] rfl⟩

/-! ## Verdict aggregator: cap enforcement -/

/-- C5: with more than 50 candidates, the dialog verifies exactly the first
50 in incoming order (`take 50`), the truncation warning fires, and the
pair list sent to the service is built from exactly those 50. -/
theorem c5_cap_enforcement (cands : List Candidate) (sourceTitle : String)
    (sourcePrice : ℚ) (h : MAX_CANDIDATES_PER_CALL < cands.length) :
    (capCandidates cands).1 = cands.take 50 ∧
      (capCandidates cands).1.length = 50 ∧
      (capCandidates cands).2 = true ∧
      buildPairs sourceTitle sourcePrice (capCandidates cands).1 =
        buildPairs sourceTitle sourcePrice (cands.take 50) ∧
      (buildPairs sourceTitle sourcePrice (capCandidates cands).1).length =
        50 := by
  have h' : 50 < cands.length := h
  have h1 : capCandidates cands = (cands.take 50, true) := by
    unfold capCandidates MAX_CANDIDATES_PER_CALL
    rw [if_pos h']
  have hlen : (cands.take 50).length = 50 := by
    rw [List.length_take]
    omega
  refine ⟨by rw [h1], by rw [h1]; exact hlen, by rw [h1], by rw [h1], ?_⟩
  rw [h1]
  simpa [buildPairs] using hlen

/-- Witness for C5: 75 identical candidates, exceeding the cap. -/
theorem c5_cap_enforcement_witness :
    MAX_CANDIDATES_PER_CALL <
        (List.replicate 75 (⟨"1", "t", some 5, "", "", 1⟩ : Candidate)).length ∧
      ((capCandidates
            (List.replicate 75 (⟨"1", "t", some 5, "", "", 1⟩ : Candidate))).1 =
          (List.replicate 75 (⟨"1", "t", some 5, "", "", 1⟩ : Candidate)).take 50 ∧
        (capCandidates
            (List.replicate 75 (⟨"1", "t", some 5, "", "", 1⟩ : Candidate))).1.length =
          50 ∧
        (capCandidates
            (List.replicate 75 (⟨"1", "t", some 5, "", "", 1⟩ : Candidate))).2 =
          true ∧
        buildPairs "s" 0
            (capCandidates
              (List.replicate 75 (⟨"1", "t", some 5, "", "", 1⟩ : Candidate))).1 =
          buildPairs "s" 0
            ((List.replicate 75 (⟨"1", "t", some 5, "", "", 1⟩ : Candidate)).take 50) ∧
        (buildPairs "s" 0
            (capCandidates
              (List.replicate 75 (⟨"1", "t", some 5, "", "", 1⟩ : Candidate))).1).length =
          50) := by
  have h : MAX_CANDIDATES_PER_CALL <
      (List.replicate 75 (⟨"1", "t", some 5, "", "", 1⟩ : Candidate)).length := by
    simp [MAX_CANDIDATES_PER_CALL]
  exact ⟨h, c5_cap_enforcement _ "s" 0 h⟩

/-! ## Embedding text preparation: role prefixes -/

/-- Auxiliary: a character list passes the leading-segment test against
itself followed by anything. -/
theorem isPrefixOf_append_self :
    ∀ (l₁ l₂ : List Char), l₁.isPrefixOf (l₁ ++ l₂) = true
  | [], _ => by simp [List.isPrefixOf]
  | a :: as, l₂ => by
    show (a == a && as.isPrefixOf (as ++ l₂)) = true
    rw [isPrefixOf_append_self as l₂, beq_self_eq_true]
    rfl

/-- Auxiliary: a string passes the leading-segment test (as character data)
against itself followed by anything. -/
theorem isPrefixOf_data_append (p s : String) :
    p.data.isPrefixOf (p ++ s).data = true := by
  rw [String.data_append]
  exact isPrefixOf_append_self p.data s.data

/-- C8 counterexample: in the `pchome_to_momo` direction the
source-platform (PChome) titles are prepared with the passage role, not the
query role, so the claim fails for that direction at the very first
title. -/
theorem c8_counterexample :
    sourceTexts [⟨1, "momo title", none, "", "", ""⟩]
        [⟨1, "pchome title", none, "", "", ""⟩] "pchome_to_momo" =
      ["passage: pchome title"] ∧
      ¬ ∀ t ∈ sourceTexts [⟨1, "momo title", none, "", "", ""⟩]
          [⟨1, "pchome title", none, "", "", ""⟩] "pchome_to_momo",
        "query: ".data.isPrefixOf t.data = true :=
  ⟨rfl, by decide⟩

/-- C8 (amended): the embedding prefixes are fixed by platform, not by
comparison direction: MOMO titles are always prepared as query texts and
PChome titles always as passage texts.  Consequently the source side
carries the query role only in the momo_to_pchome direction, while in the
pchome_to_momo direction the source-platform titles are passage-prefixed
and the target-platform titles query-prefixed. -/
theorem c8_platform_prefixes (momo_df pchome_df : List Row) :
    (∀ t ∈ momoTexts momo_df, ∃ r ∈ momo_df, t = "query: " ++ r.title ∧
      "query: ".data.isPrefixOf t.data = true) ∧
      (∀ t ∈ pchomeTexts pchome_df, ∃ r ∈ pchome_df,
        t = "passage: " ++ r.title ∧
        "passage: ".data.isPrefixOf t.data = true) ∧
      sourceTexts momo_df pchome_df "momo_to_pchome" = momoTexts momo_df ∧
      targetTexts momo_df pchome_df "momo_to_pchome" =
        pchomeTexts pchome_df ∧
      sourceTexts momo_df pchome_df "pchome_to_momo" =
        pchomeTexts pchome_df ∧
      targetTexts momo_df pchome_df "pchome_to_momo" = momoTexts momo_df := by
  refine ⟨?_, ?_, by simp [sourceTexts], by simp [targetTexts],
    by simp [sourceTexts], by simp [targetTexts]⟩
  · intro t ht
    rcases List.mem_map.mp ht with ⟨r, hr, rfl⟩
    refine ⟨r, hr, by simp [prepare_text], ?_⟩
    exact isPrefixOf_data_append "query: " r.title
  · intro t ht
    rcases List.mem_map.mp ht with ⟨r, hr, rfl⟩
    refine ⟨r, hr, by simp [prepare_text], ?_⟩
    exact isPrefixOf_data_append "passage: " r.title

/-! ## Similarity matcher: threshold invariant and ordering -/

/-- Auxiliary: membership in the enumerate-and-filter loop over the target
rows. -/
theorem mem_scanCandidates {f : Nat → ℚ} :
    ∀ (tgt : List Row) (j : Nat) (c : Candidate),
      c ∈ scanCandidates f tgt j ↔
        ∃ k row, tgt[k]? = some row ∧ threshold ≤ f (j + k) ∧
          c = mkCandidate row (f (j + k))
  | [], j, c => by simp [scanCandidates]
  | r :: rs, j, c => by
    have ih := mem_scanCandidates (f := f) rs (j + 1)
    constructor
    · intro hc
      by_cases h : threshold ≤ f j
      · rw [scanCandidates, if_pos h] at hc
        rcases List.mem_cons.mp hc with rfl | hc2
        · exact ⟨0, r, by simp, by simpa using h, by simp⟩
        · rcases (ih c).mp hc2 with ⟨k, row, hrow, hth, hceq⟩
          refine ⟨k + 1, row, by simpa using hrow, ?_, ?_⟩
          · have e : j + (k + 1) = j + 1 + k := by omega
            rw [e]; exact hth
          · have e : j + (k + 1) = j + 1 + k := by omega
            rw [e]; exact hceq
      · rw [scanCandidates, if_neg h] at hc
        rcases (ih c).mp hc with ⟨k, row, hrow, hth, hceq⟩
        refine ⟨k + 1, row, by simpa using hrow, ?_, ?_⟩
        · have e : j + (k + 1) = j + 1 + k := by omega
          rw [e]; exact hth
        · have e : j + (k + 1) = j + 1 + k := by omega
          rw [e]; exact hceq
    · rintro ⟨k, row, hrow, hth, rfl⟩
      match k, hrow, hth with
      | 0, hrow, hth =>
        simp only [List.getElem?_cons_zero, Option.some.injEq] at hrow
        subst hrow
        rw [scanCandidates, if_pos (by simpa using hth)]
        simp
      | k + 1, hrow, hth =>
        simp only [List.getElem?_cons_succ] at hrow
        have e : j + (k + 1) = j + 1 + k := by omega
        have hmem : mkCandidate row (f (j + (k + 1))) ∈
            scanCandidates f rs (j + 1) := by
          rw [e]
          refine (ih _).mpr ⟨k, row, hrow, ?_, rfl⟩
          rw [← e]; exact hth
        by_cases h : threshold ≤ f j
        · rw [scanCandidates, if_pos h]
          exact List.mem_cons_of_mem _ hmem
        · rw [scanCandidates, if_neg h]
          exact hmem

/-- Auxiliary: the per-source candidate list holds exactly the
above-threshold targets. -/
theorem mem_stage1Matches {sim2 : Nat → Nat → ℚ} {tgt : List Row} {i : Nat}
    {c : Candidate} :
    c ∈ stage1Matches sim2 tgt i ↔
      ∃ k row, tgt[k]? = some row ∧ threshold ≤ sim2 i k ∧
        c = mkCandidate row (sim2 i k) := by
  rw [stage1Matches, List.mem_insertionSort]
  simpa using mem_scanCandidates (f := sim2 i) tgt 0 c

/-- Auxiliary: the source enumeration has one output entry per source
row. -/
theorem branchScan_length (sim2 : Nat → Nat → ℚ) (tgt : List Row) :
    ∀ (src : List Row) (i0 : Nat),
      (branchScan sim2 tgt src i0).length = src.length
  | [], _ => rfl
  | _ :: rs, i0 => by
    simpa [branchScan] using branchScan_length sim2 tgt rs (i0 + 1)

/-- Auxiliary: the source enumeration keys entry `i` by the id of source
row `i` and fills it with that row's candidate list. -/
theorem branchScan_getElem (sim2 : Nat → Nat → ℚ) (tgt : List Row) :
    ∀ (src : List Row) (i0 i : Nat) (r : Row), src[i]? = some r →
      (branchScan sim2 tgt src i0)[i]? =
        some (toString r.id, stage1Matches sim2 tgt (i0 + i))
  | [], _, i, r, h => by simp at h
  | r0 :: rs, i0, 0, r, h => by
    simp only [List.getElem?_cons_zero, Option.some.injEq] at h
    subst h
    simp [branchScan]
  | r0 :: rs, i0, i + 1, r, h => by
    simp only [List.getElem?_cons_succ] at h
    have ih := branchScan_getElem sim2 tgt rs (i0 + 1) i r h
    have e : i0 + (i + 1) = i0 + 1 + i := by omega
    rw [e]
    simpa [branchScan] using ih

/-- C1: for non-empty product sets, in either direction the matcher output
has one entry per source row, keyed by that row's id; the entry's list
contains only candidates at or above the threshold, every candidate comes
from some target row with its exact similarity, no target at or above the
threshold is omitted, and the list is sorted descending by similarity. -/
theorem c1_threshold_invariant (sim : Nat → Nat → ℚ)
    (momo_df pchome_df src tgt : List Row) (sim2 : Nat → Nat → ℚ)
    (direction : String)
    (hm : momo_df ≠ []) (hp : pchome_df ≠ [])
    (hsrc : src = if direction = "momo_to_pchome" then momo_df else pchome_df)
    (htgt : tgt = if direction = "momo_to_pchome" then pchome_df else momo_df)
    (hsim : sim2 = if direction = "momo_to_pchome" then sim
      else fun i j => sim j i) :
    (calculate_similarities_in_memory sim momo_df pchome_df
        direction).length = src.length ∧
      ∀ (i : Nat) (r : Row), src[i]? = some r →
        ∃ L, (calculate_similarities_in_memory sim momo_df pchome_df
            direction)[i]? = some (toString r.id, L) ∧
          (∀ c ∈ L, threshold ≤ c.similarity) ∧
          (∀ c ∈ L, ∃ k row, tgt[k]? = some row ∧ threshold ≤ sim2 i k ∧
            c = mkCandidate row (sim2 i k)) ∧
          (∀ (k : Nat) (row : Row), tgt[k]? = some row →
            threshold ≤ sim2 i k → mkCandidate row (sim2 i k) ∈ L) ∧
          L.Sorted descBySim := by
  have hout : calculate_similarities_in_memory sim momo_df pchome_df direction
      = branchScan sim2 tgt src 0 := by
    rw [calculate_similarities_in_memory,
      if_neg (by simp [hm, hp])]
    by_cases hd : direction = "momo_to_pchome"
    · rw [if_pos hd, hsrc, htgt, hsim, if_pos hd, if_pos hd, if_pos hd]
    · rw [if_neg hd, hsrc, htgt, hsim, if_neg hd, if_neg hd, if_neg hd]
  rw [hout]
  refine ⟨branchScan_length sim2 tgt src 0, ?_⟩
  intro i r hr
  refine ⟨stage1Matches sim2 tgt i, ?_, ?_, ?_, ?_,
    List.sorted_insertionSort _ _⟩
  · simpa using branchScan_getElem sim2 tgt src 0 i r hr
  · intro c hc
    rcases mem_stage1Matches.mp hc with ⟨k, row, _, hth, rfl⟩
    simpa [mkCandidate] using hth
  · intro c hc
    exact mem_stage1Matches.mp hc
  · intro k row hrow hth
    exact mem_stage1Matches.mpr ⟨k, row, hrow, hth, rfl⟩

/-- Witness for C1: one MOMO row, one PChome row, constant similarity 1
above the threshold, direction momo_to_pchome. -/
theorem c1_threshold_invariant_witness :
    (([⟨1, "a", none, "", "", ""⟩] : List Row) ≠ [] ∧
        ([⟨2, "b", none, "", "", ""⟩] : List Row) ≠ []) ∧
      ((calculate_similarities_in_memory (fun _ _ => 1)
            [⟨1, "a", none, "", "", ""⟩] [⟨2, "b", none, "", "", ""⟩]
            "momo_to_pchome").length =
          ([⟨1, "a", none, "", "", ""⟩] : List Row).length ∧
        ∀ (i : Nat) (r : Row),
          ([⟨1, "a", none, "", "", ""⟩] : List Row)[i]? = some r →
          ∃ L, (calculate_similarities_in_memory (fun _ _ => 1)
              [⟨1, "a", none, "", "", ""⟩] [⟨2, "b", none, "", "", ""⟩]
              "momo_to_pchome")[i]? = some (toString r.id, L) ∧
            (∀ c ∈ L, threshold ≤ c.similarity) ∧
            (∀ c ∈ L, ∃ k row,
              ([⟨2, "b", none, "", "", ""⟩] : List Row)[k]? = some row ∧
              threshold ≤ (fun (_ _ : Nat) => (1 : ℚ)) i k ∧
              c = mkCandidate row ((fun (_ _ : Nat) => (1 : ℚ)) i k)) ∧
            (∀ (k : Nat) (row : Row),
              ([⟨2, "b", none, "", "", ""⟩] : List Row)[k]? = some row →
              threshold ≤ (fun (_ _ : Nat) => (1 : ℚ)) i k →
              mkCandidate row ((fun (_ _ : Nat) => (1 : ℚ)) i k) ∈ L) ∧
            L.Sorted descBySim) :=
  ⟨⟨by simp, by simp⟩,
    c1_threshold_invariant (fun _ _ => 1) [⟨1, "a", none, "", "", ""⟩]
      [⟨2, "b", none, "", "", ""⟩] [⟨1, "a", none, "", "", ""⟩]
      [⟨2, "b", none, "", "", ""⟩] (fun _ _ => 1) "momo_to_pchome"
      (by simp) (by simp) (by simp) (by simp) (by simp)⟩

/-! ## Result ranker -/

/-- Auxiliary: the quicksort on the empty list. -/
theorem quicksortArr_nil : quicksortArr [] = [] := by
  rw [quicksortArr, dif_pos (by norm_num)]

/-- Auxiliary: the quicksort on a singleton. -/
theorem quicksortArr_singleton (x : VerifiedResult) :
    quicksortArr [x] = [x] := by
  rw [quicksortArr, dif_pos (by norm_num)]

/-- Auxiliary: unfolding of the quicksort on lists of length at least 2. -/
theorem quicksortArr_eq_of_long {arr : List VerifiedResult}
    (h : ¬ arr.length ≤ 1) (hlt : arr.length / 2 < arr.length) :
    quicksortArr arr =
      quicksortArr (arr.filter (fun x =>
          decide (itemKey x < itemKey (arr.get ⟨arr.length / 2, hlt⟩)))) ++
        arr.filter (fun x =>
          decide (itemKey x = itemKey (arr.get ⟨arr.length / 2, hlt⟩))) ++
        quicksortArr (arr.filter (fun x =>
          decide (itemKey (arr.get ⟨arr.length / 2, hlt⟩) < itemKey x))) := by
  rw [quicksortArr, dif_neg h]

/-- Auxiliary: the three price-key partitions of a list are a permutation
of it. -/
theorem tripartition_perm (k : WithTop ℚ) :
    ∀ arr : List VerifiedResult,
      (arr.filter (fun x => decide (itemKey x < k)) ++
        (arr.filter (fun x => decide (itemKey x = k)) ++
          arr.filter (fun x => decide (k < itemKey x)))).Perm arr
  | [] => by simp
  | a :: t => by
    have ih := tripartition_perm k t
    rcases lt_trichotomy (itemKey a) k with h | h | h
    · have h1 : decide (itemKey a < k) = true := decide_eq_true h
      have h2 : decide (itemKey a = k) = false := decide_eq_false (ne_of_lt h)
      have h3 : decide (k < itemKey a) = false := decide_eq_false (lt_asymm h)
      simp only [List.filter_cons, h1, h2, h3, Bool.false_eq_true, if_false,
        if_true, List.cons_append]
      exact ih.cons a
    · have h1 : decide (itemKey a < k) = false :=
        decide_eq_false (by rw [h]; exact lt_irrefl k)
      have h2 : decide (itemKey a = k) = true := decide_eq_true h
      have h3 : decide (k < itemKey a) = false :=
        decide_eq_false (by rw [h]; exact lt_irrefl k)
      simp only [List.filter_cons, h1, h2, h3, Bool.false_eq_true, if_false,
        if_true, List.cons_append]
      exact List.perm_middle.trans (ih.cons a)
    · have h1 : decide (itemKey a < k) = false := decide_eq_false (lt_asymm h)
      have h2 : decide (itemKey a = k) = false := decide_eq_false (ne_of_gt h)
      have h3 : decide (k < itemKey a) = true := decide_eq_true h
      simp only [List.filter_cons, h1, h2, h3, Bool.false_eq_true, if_false,
        if_true]
      exact (List.Perm.append_left _ List.perm_middle).trans
        (List.perm_middle.trans (ih.cons a))

/-- Auxiliary: the quicksort permutes its input (fuel-indexed version). -/
theorem quicksortArr_perm_aux :
    ∀ (n : Nat) (arr : List VerifiedResult), arr.length ≤ n →
      (quicksortArr arr).Perm arr
  | 0, arr, hle => by
    have harr : arr = [] := List.length_eq_zero.mp (Nat.le_zero.mp hle)
    subst harr
    rw [quicksortArr_nil]
  | n + 1, arr, hle => by
    by_cases h : arr.length ≤ 1
    · rw [quicksortArr, dif_pos h]
    · have hlt : arr.length / 2 < arr.length := by omega
      rw [quicksortArr_eq_of_long h hlt, List.append_assoc]
      have hpm : arr.get ⟨arr.length / 2, hlt⟩ ∈ arr := arr.get_mem _ _
      have hl1 : (arr.filter (fun x =>
          decide (itemKey x < itemKey (arr.get ⟨arr.length / 2, hlt⟩)))).length ≤ n := by
        have := length_filter_lt_of_mem hpm
          (p := fun x =>
            decide (itemKey x < itemKey (arr.get ⟨arr.length / 2, hlt⟩)))
          (by simp)
        omega
      have hl3 : (arr.filter (fun x =>
          decide (itemKey (arr.get ⟨arr.length / 2, hlt⟩) < itemKey x))).length ≤ n := by
        have := length_filter_lt_of_mem hpm
          (p := fun x =>
            decide (itemKey (arr.get ⟨arr.length / 2, hlt⟩) < itemKey x))
          (by simp)
        omega
      have p1 := quicksortArr_perm_aux n _ hl1
      have p3 := quicksortArr_perm_aux n _ hl3
      exact (p1.append ((List.Perm.refl _).append p3)).trans
        (tripartition_perm _ arr)

/-- Auxiliary: the quicksort permutes its input. -/
theorem quicksortArr_perm (arr : List VerifiedResult) :
    (quicksortArr arr).Perm arr :=
  quicksortArr_perm_aux arr.length arr le_rfl

/-- Auxiliary: the quicksort output is sorted by the price key
(fuel-indexed version). -/
theorem quicksortArr_sorted_aux :
    ∀ (n : Nat) (arr : List VerifiedResult), arr.length ≤ n →
      (quicksortArr arr).Sorted (fun a b => itemKey a ≤ itemKey b)
  | 0, arr, hle => by
    have harr : arr = [] := List.length_eq_zero.mp (Nat.le_zero.mp hle)
    subst harr
    rw [quicksortArr_nil]
    exact List.sorted_nil
  | n + 1, arr, hle => by
    by_cases h : arr.length ≤ 1
    · rw [quicksortArr, dif_pos h]
      rcases arr with _ | ⟨x, _ | ⟨y, t⟩⟩
      · exact List.sorted_nil
      · exact List.sorted_singleton x
      · simp at h
    · have hlt : arr.length / 2 < arr.length := by omega
      rw [quicksortArr_eq_of_long h hlt, List.append_assoc]
      have hpm : arr.get ⟨arr.length / 2, hlt⟩ ∈ arr := arr.get_mem _ _
      have hl1 : (arr.filter (fun x =>
          decide (itemKey x < itemKey (arr.get ⟨arr.length / 2, hlt⟩)))).length ≤ n := by
        have := length_filter_lt_of_mem hpm
          (p := fun x =>
            decide (itemKey x < itemKey (arr.get ⟨arr.length / 2, hlt⟩)))
          (by simp)
        omega
      have hl3 : (arr.filter (fun x =>
          decide (itemKey (arr.get ⟨arr.length / 2, hlt⟩) < itemKey x))).length ≤ n := by
        have := length_filter_lt_of_mem hpm
          (p := fun x =>
            decide (itemKey (arr.get ⟨arr.length / 2, hlt⟩) < itemKey x))
          (by simp)
        omega
      have s1 := quicksortArr_sorted_aux n _ hl1
      have s3 := quicksortArr_sorted_aux n _ hl3
      have m1 : ∀ a ∈ quicksortArr (arr.filter (fun x =>
          decide (itemKey x < itemKey (arr.get ⟨arr.length / 2, hlt⟩)))),
          itemKey a < itemKey (arr.get ⟨arr.length / 2, hlt⟩) := by
        intro a ha
        have := ((quicksortArr_perm_aux n _ hl1).mem_iff).mp ha
        exact of_decide_eq_true (List.mem_filter.mp this).2
      have m2 : ∀ a ∈ arr.filter (fun x =>
          decide (itemKey x = itemKey (arr.get ⟨arr.length / 2, hlt⟩))),
          itemKey a = itemKey (arr.get ⟨arr.length / 2, hlt⟩) := by
        intro a ha
        exact of_decide_eq_true (List.mem_filter.mp ha).2
      have m3 : ∀ a ∈ quicksortArr (arr.filter (fun x =>
          decide (itemKey (arr.get ⟨arr.length / 2, hlt⟩) < itemKey x))),
          itemKey (arr.get ⟨arr.length / 2, hlt⟩) < itemKey a := by
        intro a ha
        have := ((quicksortArr_perm_aux n _ hl3).mem_iff).mp ha
        exact of_decide_eq_true (List.mem_filter.mp this).2
      refine List.pairwise_append.mpr ⟨s1, ?_, ?_⟩
      · refine List.pairwise_append.mpr ⟨?_, s3, ?_⟩
        · exact List.pairwise_of_forall_mem_list (fun a ha b hb =>
            le_of_eq ((m2 a ha).trans (m2 b hb).symm))
        · exact fun a ha b hb => (m2 a ha).le.trans (m3 b hb).le
      · intro a ha b hb
        rcases List.mem_append.mp hb with hb | hb
        · exact (m1 a ha).le.trans (m2 b hb).symm.le
        · exact ((m1 a ha).trans (m3 b hb)).le

/-- Auxiliary: the quicksort output is sorted ascending by the price
key. -/
theorem quicksortArr_sorted (arr : List VerifiedResult) :
    (quicksortArr arr).Sorted (fun a b => itemKey a ≤ itemKey b) :=
  quicksortArr_sorted_aux arr.length arr le_rfl

/-- Auxiliary: the ranker's output on the specification's concrete
scenario, computed. -/
theorem c4_example_eval :
    quicksort_by_price c4ExampleInput =
      [exItem 50 true, exItem 500 true, exItem 100 false,
        exItem 9999 false] := by
  have hm : c4ExampleInput.filter (fun x => x.is_match) =
      [exItem 500 true, exItem 50 true] := rfl
  have hu : c4ExampleInput.filter (fun x => !x.is_match) =
      [exItem 100 false, exItem 9999 false] := rfl
  have h1 : quicksortArr [exItem 500 true, exItem 50 true] =
      [exItem 50 true, exItem 500 true] := by
    rw [quicksortArr, dif_neg (by norm_num)]
    show quicksortArr (List.filter _ _) ++ _ ++
      quicksortArr (List.filter _ _) = _
    norm_num [List.filter_cons, List.filter_nil, itemKey, exItem]
    rw [if_neg (by decide), if_pos (by decide), quicksortArr_nil,
      quicksortArr_singleton]
    simp
  have h2 : quicksortArr [exItem 100 false, exItem 9999 false] =
      [exItem 100 false, exItem 9999 false] := by
    rw [quicksortArr, dif_neg (by norm_num)]
    show quicksortArr (List.filter _ _) ++ _ ++
      quicksortArr (List.filter _ _) = _
    norm_num [List.filter_cons, List.filter_nil, itemKey, exItem]
    rw [if_pos (by decide), if_neg (by decide), quicksortArr_nil,
      quicksortArr_singleton]
    simp
  rw [quicksort_by_price, if_neg (by decide), hm, hu, h1, h2]
  rfl

/-- C4 counterexample: on the specification's concrete scenario the ranker
returns all four items, so the claimed exact three-element output, which
omits the 100-priced unmatched item, is wrong. -/
theorem c4_counterexample :
    quicksort_by_price c4ExampleInput ≠
      [exItem 50 true, exItem 500 true, exItem 9999 false] := by
  rw [c4_example_eval]
  decide

/-- C4 (amended): the ranker returns the matched items sorted ascending by
target price followed by the unmatched items sorted ascending by target
price, a missing or NaN price acting as the top key and hence sorting last
within its partition; on the specification's concrete scenario the output
is [50 (matched), 500 (matched), 100 (unmatched), 9999 (unmatched)] — all
four items, with the 100-priced unmatched item placed after every matched
item despite its lower price. -/
theorem c4_ranking (items : List VerifiedResult) :
    (∃ A B, quicksort_by_price items = A ++ B ∧
      A.Perm (items.filter (fun x => x.is_match)) ∧
      A.Sorted (fun a b => itemKey a ≤ itemKey b) ∧
      B.Perm (items.filter (fun x => !x.is_match)) ∧
      B.Sorted (fun a b => itemKey a ≤ itemKey b)) ∧
      quicksort_by_price c4ExampleInput =
        [exItem 50 true, exItem 500 true, exItem 100 false,
          exItem 9999 false] := by
  refine ⟨?_, c4_example_eval⟩
  by_cases h : items.length ≤ 1
  · rw [quicksort_by_price, if_pos h]
    rcases items with _ | ⟨x, _ | ⟨y, t⟩⟩
    · exact ⟨[], [], by simp, by simp, List.sorted_nil, by simp,
        List.sorted_nil⟩
    · by_cases hx : x.is_match
      · refine ⟨[x], [], by simp, ?_, List.sorted_singleton x, ?_,
          List.sorted_nil⟩
        · simp [List.filter_cons, hx]
        · simp [List.filter_cons, hx]
      · rw [Bool.not_eq_true] at hx
        refine ⟨[], [x], by simp, ?_, List.sorted_nil, ?_,
          List.sorted_singleton x⟩
        · simp [List.filter_cons, hx]
        · simp [List.filter_cons, hx]
    · simp at h
  · rw [quicksort_by_price, if_neg h]
    exact ⟨_, _, rfl, quicksortArr_perm _, quicksortArr_sorted _,
      quicksortArr_perm _, quicksortArr_sorted _⟩

/-! ## Scraper: deduplication invariant -/

/-- The pairwise deduplication property: no two records share a url, and no
two records share the same non-empty sku. -/
def DedupOK (ps : List ScrapedProduct) : Prop :=
  ps.Pairwise (fun a b => a.url ≠ b.url ∧ (a.sku = b.sku → a.sku = ""))

/-- The scrape-loop invariant: collected products are deduplicated and
every collected non-empty sku is recorded in the seen set. -/
def StateOK (st : ScrapeState) : Prop :=
  DedupOK st.products ∧ ∀ p ∈ st.products, p.sku ≠ "" → p.sku ∈ st.seenSkus

/-- Auxiliary: the initial state satisfies the invariant. -/
theorem initState_ok : StateOK initState :=
  ⟨List.Pairwise.nil, fun p hp => absurd hp (List.not_mem_nil p)⟩

/-- Auxiliary: accepting a non-duplicate momo record preserves the
invariant. -/
theorem momoAccept_ok {st : ScrapeState} {r : RawItem}
    (h : StateOK st) (hd : momoIsDup st r = false) :
    StateOK (momoAccept st r) := by
  obtain ⟨hded, hseen⟩ := h
  rw [momoIsDup, Bool.or_eq_false_iff, Bool.and_eq_false_iff] at hd
  obtain ⟨hsku, hurl⟩ := hd
  have hurl2 : r.url ∉ st.products.map (fun p => p.url) :=
    of_decide_eq_false hurl
  have hsku2 : r.sku = "" ∨ r.sku ∉ st.seenSkus := by
    rcases hsku with h1 | h1
    · left
      have := of_decide_eq_false h1
      simpa using this
    · exact Or.inr (of_decide_eq_false h1)
  constructor
  · rw [momoAccept]
    apply List.pairwise_append.mpr
    refine ⟨hded, List.pairwise_singleton _ _, ?_⟩
    intro a ha b hb
    rw [List.mem_singleton] at hb
    subst hb
    constructor
    · intro he
      have he2 : a.url = r.url := he
      exact hurl2 (List.mem_map.mpr ⟨a, ha, he2⟩)
    · intro he
      have he2 : a.sku = r.sku := he
      by_contra hne
      have hmem := hseen a ha hne
      rcases hsku2 with h0 | h0
      · exact hne (he2.trans h0)
      · exact h0 (he2 ▸ hmem)
  · intro p hp hne
    have hp2 : p ∈ st.products ++
        [⟨st.productId, r.title, r.price, r.image_url, r.url, "momo", r.sku⟩] := hp
    show p.sku ∈ if r.sku ≠ "" then r.sku :: st.seenSkus else st.seenSkus
    rcases List.mem_append.mp hp2 with hp3 | hp3
    · have hmem := hseen p hp3 hne
      by_cases hs : r.sku ≠ ""
      · rw [if_pos hs]
        exact List.mem_cons_of_mem _ hmem
      · rw [if_neg hs]
        exact hmem
    · rw [List.mem_singleton] at hp3
      subst hp3
      have hne2 : r.sku ≠ "" := hne
      rw [if_pos hne2]
      exact List.mem_cons_self _ _

/-- Auxiliary: accepting a non-duplicate PChome record preserves the
invariant. -/
theorem pchomeAccept_ok {st : ScrapeState} {title : String} {price : Nat}
    {image url sku : String} (h : StateOK st)
    (hd : pchomeIsDup st sku url = false) :
    StateOK (pchomeAccept st title price image url sku) := by
  obtain ⟨hded, hseen⟩ := h
  rw [pchomeIsDup, Bool.or_eq_false_iff] at hd
  obtain ⟨hsku, hurl⟩ := hd
  have hurl2 : url ∉ st.products.map (fun p => p.url) :=
    of_decide_eq_false hurl
  have hsku2 : sku ∉ st.seenSkus := of_decide_eq_false hsku
  constructor
  · rw [pchomeAccept]
    apply List.pairwise_append.mpr
    refine ⟨hded, List.pairwise_singleton _ _, ?_⟩
    intro a ha b hb
    rw [List.mem_singleton] at hb
    subst hb
    constructor
    · intro he
      have he2 : a.url = url := he
      exact hurl2 (List.mem_map.mpr ⟨a, ha, he2⟩)
    · intro he
      have he2 : a.sku = sku := he
      by_contra hne
      exact hsku2 (he2 ▸ hseen a ha hne)
  · intro p hp hne
    have hp2 : p ∈ st.products ++
        [⟨st.productId, title, price, image, url, "pchome", sku⟩] := hp
    show p.sku ∈ sku :: st.seenSkus
    rcases List.mem_append.mp hp2 with hp3 | hp3
    · exact List.mem_cons_of_mem _ (hseen p hp3 hne)
    · rw [List.mem_singleton] at hp3
      subst hp3
      exact List.mem_cons_self _ _

/-- Auxiliary: the momo element loop preserves the invariant. -/
theorem momoElemLoop_ok (maxP : Nat) :
    ∀ (els : List (Option MomoElemData)) (st : ScrapeState) (cd pc : Nat),
      StateOK st → StateOK (momoElemLoop maxP els st cd pc).1
  | [], _, _, _, h => h
  | none :: rest, st, cd, pc, h => by
    rw [momoElemLoop]
    split
    · exact h
    · exact momoElemLoop_ok maxP rest st cd pc h
  | some d :: rest, st, cd, pc, h => by
    rw [momoElemLoop]
    split
    · exact h
    · by_cases hv : (momoMakeRaw d).title ≠ "" ∧ 0 < (momoMakeRaw d).price ∧
          (momoMakeRaw d).url ≠ ""
      · rw [if_pos hv]
        by_cases hdup : momoIsDup st (momoMakeRaw d) = true
        · rw [if_pos hdup]
          split
          · exact h
          · exact momoElemLoop_ok maxP rest st (cd + 1) pc h
        · rw [Bool.not_eq_true] at hdup
          rw [if_neg (by simp [hdup])]
          exact momoElemLoop_ok maxP rest (momoAccept st (momoMakeRaw d)) 0
            (pc + 1) (momoAccept_ok h hdup)
      · rw [if_neg hv]
        exact momoElemLoop_ok maxP rest st cd pc h

/-- Auxiliary: the PChome element loop preserves the invariant. -/
theorem pchomeElemLoop_ok (maxP : Nat) :
    ∀ (els : List (Option PchomeElemData)) (st : ScrapeState) (cd pc : Nat),
      StateOK st → StateOK (pchomeElemLoop maxP els st cd pc).1
  | [], _, _, _, h => h
  | none :: rest, st, cd, pc, h => by
    rw [pchomeElemLoop]
    split
    · exact h
    · exact pchomeElemLoop_ok maxP rest st cd pc h
  | some d :: rest, st, cd, pc, h => by
    rw [pchomeElemLoop]
    split
    · exact h
    · by_cases hv : d.title ≠ "" ∧ 0 < d.price ∧
          pchomeNormalizeUrl d.href ≠ "" ∧
          pchomeSkuFromUrl (pchomeNormalizeUrl d.href) ≠ ""
      · rw [if_pos hv]
        by_cases hdup : pchomeIsDup st
            (pchomeSkuFromUrl (pchomeNormalizeUrl d.href))
            (pchomeNormalizeUrl d.href) = true
        · rw [if_pos hdup]
          split
          · exact h
          · exact pchomeElemLoop_ok maxP rest st (cd + 1) pc h
        · rw [Bool.not_eq_true] at hdup
          rw [if_neg (by simp [hdup])]
          exact pchomeElemLoop_ok maxP rest _ 0 (pc + 1) (pchomeAccept_ok h hdup)
      · rw [if_neg hv]
        exact pchomeElemLoop_ok maxP rest st cd pc h

/-- Auxiliary: every exit of the momo page loop returns a deduplicated
list. -/
theorem momoPageLoop_ok (maxP : Nat) :
    ∀ (pages : List MomoPage) (st : ScrapeState) (page ce : Nat),
      StateOK st → DedupOK (momoPageLoop maxP pages st page ce)
  | [], st, _, _, h => h.1
  | pg :: rest, st, page, ce, h => by
    have h2 := momoElemLoop_ok maxP pg.elements st 0 0 h
    rw [momoPageLoop]
    split
    · exact h.1
    split
    · exact h.1
    split
    · exact h.1
    split
    · split
      · exact h2.1
      split
      · exact h2.1
      split
      · exact h2.1
      split
      · exact h2.1
      split
      · exact momoPageLoop_ok maxP rest _ (page + 1) (ce + 1) h2
      · exact h2.1
    · split
      · exact momoPageLoop_ok maxP rest _ (page + 1) 0 h2
      · exact h2.1

/-- Auxiliary: every exit of the PChome page loop returns a deduplicated
list. -/
theorem pchomePageLoop_ok (maxP : Nat) :
    ∀ (pages : List (List (Option PchomeElemData))) (st : ScrapeState)
      (page ce : Nat),
      StateOK st → DedupOK (pchomePageLoop maxP pages st page ce)
  | [], st, _, _, h => h.1
  | els :: rest, st, page, ce, h => by
    have h2 := pchomeElemLoop_ok maxP els st 0 0 h
    rw [pchomePageLoop]
    split
    · exact h.1
    split
    · split
      · exact h2.1
      split
      · exact h2.1
      split
      · exact h2.1
      split
      · exact h2.1
      split
      · exact h2.1
      · exact pchomePageLoop_ok maxP rest _ (page + 1) (ce + 1) h2
    · split
      · exact h2.1
      · exact pchomePageLoop_ok maxP rest _ (page + 1) 0 h2

/-- C6: every scrape run of either storefront returns a list in which no
two records share a url and no two records share the same non-empty sku. -/
theorem c6_dedup_invariant (maxM : Nat) (mpages : List MomoPage)
    (maxP : Nat) (ppages : List (List (Option PchomeElemData))) :
    DedupOK (fetch_products_for_momo maxM mpages) ∧
      DedupOK (fetch_products_for_pchome maxP ppages) :=
  ⟨momoPageLoop_ok maxM mpages initState 1 0 initState_ok,
    pchomePageLoop_ok maxP ppages initState 1 0 initState_ok⟩

/-! ## Scraper: early stop and sku presence -/

/-- Auxiliary: the momo element loop only appends products, and its page
count equals the number of appended products. -/
theorem momoElemLoop_products (maxP : Nat) :
    ∀ (els : List (Option MomoElemData)) (st : ScrapeState) (cd pc : Nat),
      ∃ new, (momoElemLoop maxP els st cd pc).1.products =
          st.products ++ new ∧
        (momoElemLoop maxP els st cd pc).2 = pc + new.length
  | [], st, cd, pc => ⟨[], by simp [momoElemLoop], by simp [momoElemLoop]⟩
  | none :: rest, st, cd, pc => by
    rw [momoElemLoop]
    split
    · exact ⟨[], by simp, by simp⟩
    · exact momoElemLoop_products maxP rest st cd pc
  | some d :: rest, st, cd, pc => by
    rw [momoElemLoop]
    split
    · exact ⟨[], by simp, by simp⟩
    · by_cases hv : (momoMakeRaw d).title ≠ "" ∧ 0 < (momoMakeRaw d).price ∧
          (momoMakeRaw d).url ≠ ""
      · rw [if_pos hv]
        by_cases hdup : momoIsDup st (momoMakeRaw d) = true
        · rw [if_pos hdup]
          split
          · exact ⟨[], by simp, by simp⟩
          · exact momoElemLoop_products maxP rest st (cd + 1) pc
        · rw [Bool.not_eq_true] at hdup
          rw [if_neg (by simp [hdup])]
          obtain ⟨new, ha, hb⟩ := momoElemLoop_products maxP rest
            (momoAccept st (momoMakeRaw d)) 0 (pc + 1)
          refine ⟨⟨st.productId, (momoMakeRaw d).title, (momoMakeRaw d).price,
            (momoMakeRaw d).image_url, (momoMakeRaw d).url, "momo",
            (momoMakeRaw d).sku⟩ :: new, ?_, ?_⟩
          · rw [ha]
            show (st.products ++ [_]) ++ new = _
            simp
          · rw [hb]
            simp only [List.length_cons]
            omega
      · rw [if_neg hv]
        exact momoElemLoop_products maxP rest st cd pc

/-- Auxiliary: the PChome element loop only appends products, and its page
count equals the number of appended products. -/
theorem pchomeElemLoop_products (maxP : Nat) :
    ∀ (els : List (Option PchomeElemData)) (st : ScrapeState) (cd pc : Nat),
      ∃ new, (pchomeElemLoop maxP els st cd pc).1.products =
          st.products ++ new ∧
        (pchomeElemLoop maxP els st cd pc).2 = pc + new.length
  | [], st, cd, pc => ⟨[], by simp [pchomeElemLoop], by simp [pchomeElemLoop]⟩
  | none :: rest, st, cd, pc => by
    rw [pchomeElemLoop]
    split
    · exact ⟨[], by simp, by simp⟩
    · exact pchomeElemLoop_products maxP rest st cd pc
  | some d :: rest, st, cd, pc => by
    rw [pchomeElemLoop]
    split
    · exact ⟨[], by simp, by simp⟩
    · by_cases hv : d.title ≠ "" ∧ 0 < d.price ∧
          pchomeNormalizeUrl d.href ≠ "" ∧
          pchomeSkuFromUrl (pchomeNormalizeUrl d.href) ≠ ""
      · rw [if_pos hv]
        by_cases hdup : pchomeIsDup st
            (pchomeSkuFromUrl (pchomeNormalizeUrl d.href))
            (pchomeNormalizeUrl d.href) = true
        · rw [if_pos hdup]
          split
          · exact ⟨[], by simp, by simp⟩
          · exact pchomeElemLoop_products maxP rest st (cd + 1) pc
        · rw [Bool.not_eq_true] at hdup
          rw [if_neg (by simp [hdup])]
          obtain ⟨new, ha, hb⟩ := pchomeElemLoop_products maxP rest
            (pchomeAccept st d.title d.price d.image_url
              (pchomeNormalizeUrl d.href)
              (pchomeSkuFromUrl (pchomeNormalizeUrl d.href))) 0 (pc + 1)
          refine ⟨⟨st.productId, d.title, d.price, d.image_url,
            pchomeNormalizeUrl d.href, "pchome",
            pchomeSkuFromUrl (pchomeNormalizeUrl d.href)⟩ :: new, ?_, ?_⟩
          · rw [ha]
            show (st.products ++ [_]) ++ new = _
            simp
          · rw [hb]
            simp only [List.length_cons]
            omega
      · rw [if_neg hv]
        exact pchomeElemLoop_products maxP rest st cd pc

/-- C9: for either storefront, when page 1 has fewer than 10 raw listing
elements and its processing accepts zero valid products, the orchestrator
returns the empty collected list after page 1 and never consumes any later
page. -/
theorem c9_early_stop (maxP : Nat) (p1 : MomoPage) (rest : List MomoPage)
    (q1 : List (Option PchomeElemData))
    (qrest : List (List (Option PchomeElemData)))
    (h1 : p1.elements.length < 10)
    (h2 : (momoElemLoop maxP p1.elements initState 0 0).2 = 0)
    (h3 : q1.length < 10)
    (h4 : (pchomeElemLoop maxP q1 initState 0 0).2 = 0) :
    fetch_products_for_momo maxP (p1 :: rest) = [] ∧
      fetch_products_for_momo maxP (p1 :: rest) =
        fetch_products_for_momo maxP [p1] ∧
      fetch_products_for_pchome maxP (q1 :: qrest) = [] ∧
      fetch_products_for_pchome maxP (q1 :: qrest) =
        fetch_products_for_pchome maxP [q1] := by
  have hmprod : (momoElemLoop maxP p1.elements initState 0 0).1.products =
      [] := by
    obtain ⟨new, ha, hb⟩ := momoElemLoop_products maxP p1.elements initState 0 0
    rw [h2] at hb
    have hz : new = [] := List.length_eq_zero.mp (by omega)
    subst hz
    simpa [initState] using ha
  have hpprod : (pchomeElemLoop maxP q1 initState 0 0).1.products = [] := by
    obtain ⟨new, ha, hb⟩ := pchomeElemLoop_products maxP q1 initState 0 0
    rw [h4] at hb
    have hz : new = [] := List.length_eq_zero.mp (by omega)
    subst hz
    simpa [initState] using ha
  have hm : ∀ r : List MomoPage,
      momoPageLoop maxP (p1 :: r) initState 1 0 = [] := by
    intro r
    rw [momoPageLoop]
    by_cases ha : maxP ≤ initState.products.length
    · rw [if_pos ha]; rfl
    · rw [if_neg ha]
      by_cases hb : momoTotalStop initState p1.totalCount = true
      · rw [if_pos hb]; rfl
      · rw [if_neg hb]
        by_cases hc : p1.elements = []
        · rw [if_pos hc]; rfl
        · rw [if_neg hc, if_pos h2, if_pos ⟨rfl, h1⟩]
          exact hmprod
  have hp : ∀ r : List (List (Option PchomeElemData)),
      pchomePageLoop maxP (q1 :: r) initState 1 0 = [] := by
    intro r
    rw [pchomePageLoop]
    by_cases ha : maxP ≤ initState.products.length
    · rw [if_pos ha]; rfl
    · rw [if_neg ha, if_pos h4, if_pos ⟨rfl, h3⟩]
      exact hpprod
  exact ⟨hm rest, (hm rest).trans (hm []).symm, hp qrest,
    (hp qrest).trans (hp []).symm⟩

/-- Witness for C9: page 1 with three unparsable elements for each
storefront, one further page available that is never consumed. -/
theorem c9_early_stop_witness :
    ((⟨none, [none, none, none]⟩ : MomoPage).elements.length < 10 ∧
        (momoElemLoop 50 (⟨none, [none, none, none]⟩ : MomoPage).elements
          initState 0 0).2 = 0 ∧
        ([none, none, none] : List (Option PchomeElemData)).length < 10 ∧
        (pchomeElemLoop 50 ([none, none, none] :
          List (Option PchomeElemData)) initState 0 0).2 = 0) ∧
      fetch_products_for_momo 50
          [⟨none, [none, none, none]⟩, ⟨none, [none]⟩] = [] ∧
      fetch_products_for_momo 50
          [⟨none, [none, none, none]⟩, ⟨none, [none]⟩] =
        fetch_products_for_momo 50 [⟨none, [none, none, none]⟩] ∧
      fetch_products_for_pchome 50 [[none, none, none], [none]] = [] ∧
      fetch_products_for_pchome 50 [[none, none, none], [none]] =
        fetch_products_for_pchome 50 [[none, none, none]] :=
  ⟨⟨by decide, rfl, by decide, rfl⟩,
    c9_early_stop 50 ⟨none, [none, none, none]⟩ [⟨none, [none]⟩]
      [none, none, none] [[none]] (by decide) rfl (by decide) rfl⟩

/-- The PChome products-only sku invariant. -/
def SkuOK (st : ScrapeState) : Prop := ∀ p ∈ st.products, p.sku ≠ ""

/-- Auxiliary: the initial state has no products. -/
theorem initState_skuOK : SkuOK initState :=
  fun p hp => absurd hp (List.not_mem_nil p)

/-- Auxiliary: PChome acceptance of a non-empty sku preserves the sku
invariant. -/
theorem pchomeAccept_skuOK {st : ScrapeState} {title : String} {price : Nat}
    {image url sku : String} (h : SkuOK st) (hsku : sku ≠ "") :
    SkuOK (pchomeAccept st title price image url sku) := by
  intro p hp
  have hp2 : p ∈ st.products ++
      [⟨st.productId, title, price, image, url, "pchome", sku⟩] := hp
  rcases List.mem_append.mp hp2 with h3 | h3
  · exact h p h3
  · rw [List.mem_singleton] at h3
    subst h3
    exact hsku

/-- Auxiliary: the PChome element loop preserves the sku invariant. -/
theorem pchomeElemLoop_skuOK (maxP : Nat) :
    ∀ (els : List (Option PchomeElemData)) (st : ScrapeState) (cd pc : Nat),
      SkuOK st → SkuOK (pchomeElemLoop maxP els st cd pc).1
  | [], _, _, _, h => h
  | none :: rest, st, cd, pc, h => by
    rw [pchomeElemLoop]
    split
    · exact h
    · exact pchomeElemLoop_skuOK maxP rest st cd pc h
  | some d :: rest, st, cd, pc, h => by
    rw [pchomeElemLoop]
    split
    · exact h
    · by_cases hv : d.title ≠ "" ∧ 0 < d.price ∧
          pchomeNormalizeUrl d.href ≠ "" ∧
          pchomeSkuFromUrl (pchomeNormalizeUrl d.href) ≠ ""
      · rw [if_pos hv]
        by_cases hdup : pchomeIsDup st
            (pchomeSkuFromUrl (pchomeNormalizeUrl d.href))
            (pchomeNormalizeUrl d.href) = true
        · rw [if_pos hdup]
          split
          · exact h
          · exact pchomeElemLoop_skuOK maxP rest st (cd + 1) pc h
        · rw [Bool.not_eq_true] at hdup
          rw [if_neg (by simp [hdup])]
          exact pchomeElemLoop_skuOK maxP rest _ 0 (pc + 1)
            (pchomeAccept_skuOK h hv.2.2.2)
      · rw [if_neg hv]
        exact pchomeElemLoop_skuOK maxP rest st cd pc h

/-- Auxiliary: every exit of the PChome page loop returns products with
non-empty skus. -/
theorem pchomePageLoop_skuOK (maxP : Nat) :
    ∀ (pages : List (List (Option PchomeElemData))) (st : ScrapeState)
      (page ce : Nat), SkuOK st →
      ∀ p ∈ pchomePageLoop maxP pages st page ce, p.sku ≠ ""
  | [], st, _, _, h => h
  | els :: rest, st, page, ce, h => by
    have h2 := pchomeElemLoop_skuOK maxP els st 0 0 h
    rw [pchomePageLoop]
    split
    · exact h
    split
    · split
      · exact h2
      split
      · exact h2
      split
      · exact h2
      split
      · exact h2
      split
      · exact h2
      · exact pchomePageLoop_skuOK maxP rest _ (page + 1) (ce + 1) h2
    · split
      · exact h2
      · exact pchomePageLoop_skuOK maxP rest _ (page + 1) 0 h2

/-- C10: every product returned by the PChome scraper has a non-empty sku,
while the MOMO scraper can return a product with an empty sku when the
hidden product-id input is absent and the url derivation produces the empty
string. -/
theorem c10_sku_presence :
    (∀ (maxP : Nat) (pages : List (List (Option PchomeElemData)))
        (p : ScrapedProduct),
        p ∈ fetch_products_for_pchome maxP pages → p.sku ≠ "") ∧
      deriveSkuFromUrl "https://www.momoshop.com.tw/x/?foo" = "" ∧
      (momoMakeRaw ⟨"a nice product", 100,
          "https://www.momoshop.com.tw/x/?foo", none, ""⟩).sku = "" ∧
      fetch_products_for_momo 50
          [⟨none, [some ⟨"a nice product", 100,
            "https://www.momoshop.com.tw/x/?foo", none, ""⟩]⟩] =
        [⟨1, "a nice product", 100, "",
          "https://www.momoshop.com.tw/x/?foo", "momo", ""⟩] :=
  ⟨fun maxP pages p hp =>
    pchomePageLoop_skuOK maxP pages initState 1 0 initState_skuOK p hp,
    by decide, by decide, by decide⟩

/-- Witness for C10: a concrete PChome run whose single product the theorem
shows to carry a non-empty sku. -/
theorem c10_sku_presence_witness :
    ((⟨1, "nice title", 300, "",
        "https://24h.pchome.com.tw/prod/XYZ123?q", "pchome", "XYZ123"⟩ :
        ScrapedProduct) ∈
      fetch_products_for_pchome 50
        [[some ⟨"nice title", "/prod/XYZ123?q", 300, ""⟩]]) ∧
      (⟨1, "nice title", 300, "",
        "https://24h.pchome.com.tw/prod/XYZ123?q", "pchome", "XYZ123"⟩ :
        ScrapedProduct).sku ≠ "" := by
  have hf : fetch_products_for_pchome 50
      [[some ⟨"nice title", "/prod/XYZ123?q", 300, ""⟩]] =
      [⟨1, "nice title", 300, "",
        "https://24h.pchome.com.tw/prod/XYZ123?q", "pchome", "XYZ123"⟩] := by
    decide
  have hmem : (⟨1, "nice title", 300, "",
      "https://24h.pchome.com.tw/prod/XYZ123?q", "pchome", "XYZ123"⟩ :
      ScrapedProduct) ∈
      fetch_products_for_pchome 50
        [[some ⟨"nice title", "/prod/XYZ123?q", 300, ""⟩]] := by
    rw [hf]
    exact List.mem_singleton_self _
  exact ⟨hmem, c10_sku_presence.1 50 _ _ hmem⟩

/-! ## Price extraction -/

/-- Auxiliary: a minimum fold is at most its seed. -/
theorem foldl_min_le_seed : ∀ (l : List Nat) (a : Nat), l.foldl Nat.min a ≤ a
  | [], _ => le_rfl
  | x :: xs, a =>
    le_trans (foldl_min_le_seed xs (Nat.min a x)) (Nat.min_le_left a x)

/-- Auxiliary: a minimum fold is at most every member. -/
theorem foldl_min_le_mem :
    ∀ (l : List Nat) (a x : Nat), x ∈ l → l.foldl Nat.min a ≤ x
  | x0 :: xs, a, x, hx => by
    rcases List.mem_cons.mp hx with rfl | hx2
    · exact le_trans (foldl_min_le_seed xs (Nat.min a x)) (Nat.min_le_right a x)
    · exact foldl_min_le_mem xs (Nat.min a x0) x hx2

/-- Auxiliary: a binary minimum is one of its arguments. -/
theorem nat_min_cases (a b : Nat) : Nat.min a b = a ∨ Nat.min a b = b := by
  rcases Nat.le_total a b with h | h
  · exact Or.inl (Nat.min_eq_left h)
  · exact Or.inr (Nat.min_eq_right h)

/-- Auxiliary: a binary maximum is one of its arguments. -/
theorem nat_max_cases (a b : Nat) : Nat.max a b = a ∨ Nat.max a b = b := by
  rcases Nat.le_total a b with h | h
  · exact Or.inr (Nat.max_eq_right h)
  · exact Or.inl (Nat.max_eq_left h)

/-- Auxiliary: a minimum fold lands on its seed or on a member. -/
theorem foldl_min_mem :
    ∀ (l : List Nat) (a : Nat), l.foldl Nat.min a = a ∨ l.foldl Nat.min a ∈ l
  | [], _ => Or.inl rfl
  | x :: xs, a => by
    rcases foldl_min_mem xs (Nat.min a x) with h | h
    · rw [List.foldl_cons, h]
      rcases nat_min_cases a x with h2 | h2
      · exact Or.inl h2
      · rw [h2]
        exact Or.inr (List.mem_cons_self x xs)
    · exact Or.inr (List.mem_cons_of_mem x h)

/-- Auxiliary: a maximum fold is at least its seed. -/
theorem foldl_max_ge_seed : ∀ (l : List Nat) (a : Nat), a ≤ l.foldl Nat.max a
  | [], _ => le_rfl
  | x :: xs, a =>
    le_trans (Nat.le_max_left a x) (foldl_max_ge_seed xs (Nat.max a x))

/-- Auxiliary: a maximum fold is at least every member. -/
theorem foldl_max_ge_mem :
    ∀ (l : List Nat) (a x : Nat), x ∈ l → x ≤ l.foldl Nat.max a
  | x0 :: xs, a, x, hx => by
    rcases List.mem_cons.mp hx with rfl | hx2
    · exact le_trans (Nat.le_max_right a x) (foldl_max_ge_seed xs (Nat.max a x))
    · exact foldl_max_ge_mem xs (Nat.max a x0) x hx2

/-- Auxiliary: a maximum fold lands on its seed or on a member. -/
theorem foldl_max_mem :
    ∀ (l : List Nat) (a : Nat), l.foldl Nat.max a = a ∨ l.foldl Nat.max a ∈ l
  | [], _ => Or.inl rfl
  | x :: xs, a => by
    rcases foldl_max_mem xs (Nat.max a x) with h | h
    · rw [List.foldl_cons, h]
      rcases nat_max_cases a x with h2 | h2
      · exact Or.inl h2
      · rw [h2]
        exact Or.inr (List.mem_cons_self x xs)
    · exact Or.inr (List.mem_cons_of_mem x h)

/-- Auxiliary: the minimum of a non-empty list is a member. -/
theorem listMin_mem : ∀ {l : List Nat}, l ≠ [] → listMin l ∈ l
  | [], h => absurd rfl h
  | x :: xs, _ => by
    rw [listMin]
    rcases foldl_min_mem xs x with h | h
    · rw [h]
      exact List.mem_cons_self x xs
    · exact List.mem_cons_of_mem x h

/-- Auxiliary: the minimum of a list is at most every member. -/
theorem listMin_le : ∀ {l : List Nat} {x : Nat}, x ∈ l → listMin l ≤ x
  | x0 :: xs, x, hx => by
    rw [listMin]
    rcases List.mem_cons.mp hx with rfl | h
    · exact foldl_min_le_seed xs x
    · exact foldl_min_le_mem xs x0 x h

/-- Auxiliary: the maximum of a non-empty list is a member. -/
theorem listMax_mem : ∀ {l : List Nat}, l ≠ [] → listMax l ∈ l
  | [], h => absurd rfl h
  | x :: xs, _ => by
    rw [listMax]
    rcases foldl_max_mem xs x with h | h
    · rw [h]
      exact List.mem_cons_self x xs
    · exact List.mem_cons_of_mem x h

/-- Auxiliary: every member of a list is at most its maximum. -/
theorem le_listMax : ∀ {l : List Nat} {x : Nat}, x ∈ l → x ≤ listMax l
  | x0 :: xs, x, hx => by
    rw [listMax]
    rcases List.mem_cons.mp hx with rfl | h
    · exact foldl_max_ge_seed xs x
    · exact foldl_max_ge_mem xs x0 x h

/-- Auxiliary: a value outside a list makes its membership test false. -/
theorem contains_eq_false_of_not_mem {l : List Nat} {x : Nat}
    (h : x ∉ l) : l.contains x = false := by
  by_contra hc
  rw [Bool.not_eq_false] at hc
  exact h (List.elem_iff.mp hc)

/-- Auxiliary: the momo matched-text price is the maximum of the momo
numeric candidates. -/
theorem momoPriceFromText_spec (t : String) (h : momoCandidates t ≠ []) :
    momoPriceFromText t ∈ momoCandidates t ∧
      ∀ x ∈ momoCandidates t, x ≤ momoPriceFromText t := by
  rcases hc : momoCandidates t with _ | ⟨h0, rest⟩
  · exact absurd hc h
  · have he : momoPriceFromText t = rest.foldl Nat.max h0 := by
      rw [momoPriceFromText, hc]
    constructor
    · rw [he]
      rcases foldl_max_mem rest h0 with h2 | h2
      · rw [h2]
        exact List.mem_cons_self _ _
      · exact List.mem_cons_of_mem _ h2
    · intro x hx
      rw [he]
      rcases List.mem_cons.mp hx with rfl | h2
      · exact foldl_max_ge_seed rest x
      · exact foldl_max_ge_mem rest h0 x h2

/-- Auxiliary: the PChome selection step picks the minimum non-installment
candidate, falling back to the maximum when every candidate is an
installment amount. -/
theorem pchomeSelectPrice_spec (prices installment_prices : List Nat)
    (hne : prices ≠ []) :
    (prices.filter (fun p => !(installment_prices.contains p)) ≠ [] →
      pchomeSelectPrice prices installment_prices ∈
        prices.filter (fun p => !(installment_prices.contains p)) ∧
      ∀ x ∈ prices.filter (fun p => !(installment_prices.contains p)),
        pchomeSelectPrice prices installment_prices ≤ x) ∧
    (prices.filter (fun p => !(installment_prices.contains p)) = [] →
      pchomeSelectPrice prices installment_prices = listMax prices ∧
      pchomeSelectPrice prices installment_prices ∈ prices) := by
  rcases prices with _ | ⟨p, _ | ⟨q, rest⟩⟩
  · exact absurd rfl hne
  · have hsel : pchomeSelectPrice [p] installment_prices = p := rfl
    by_cases hcp : installment_prices.contains p = true
    · have hfil : ([p] : List Nat).filter
          (fun x => !(installment_prices.contains x)) = [] := by
        rw [List.filter_cons, hcp]
        rfl
      constructor
      · intro h'
        exact absurd hfil h'
      · intro _
        exact ⟨hsel, by rw [hsel]; exact List.mem_singleton_self p⟩
    · rw [Bool.not_eq_true] at hcp
      have hfil : ([p] : List Nat).filter
          (fun x => !(installment_prices.contains x)) = [p] := by
        rw [List.filter_cons, hcp]
        rfl
      constructor
      · intro _
        rw [hfil, hsel]
        exact ⟨List.mem_singleton_self p, fun x hx => by
          rw [List.mem_singleton] at hx
          rw [hx]⟩
      · intro h'
        rw [hfil] at h'
        exact absurd h' (List.cons_ne_nil p [])
  · by_cases hin : installment_prices ≠ [] ∧
        listMin (p :: q :: rest) ∈ installment_prices
    · have hsel : pchomeSelectPrice (p :: q :: rest) installment_prices =
          match (p :: q :: rest).filter
              (fun x => !(installment_prices.contains x)) with
          | [] => listMax (p :: q :: rest)
          | _ :: _ =>
            listMin ((p :: q :: rest).filter
              (fun x => !(installment_prices.contains x))) := by
        show (if installment_prices ≠ [] ∧
            listMin (p :: q :: rest) ∈ installment_prices then _ else _) = _
        rw [if_pos hin]
      rcases hv : (p :: q :: rest).filter
          (fun x => !(installment_prices.contains x)) with _ | ⟨v, vs⟩
      · have hsel2 : pchomeSelectPrice (p :: q :: rest) installment_prices =
            listMax (p :: q :: rest) := by
          rw [hsel, hv]
        constructor
        · intro h'
          exact absurd rfl h'
        · intro _
          exact ⟨hsel2, by rw [hsel2]; exact listMax_mem (by simp)⟩
      · have hsel2 : pchomeSelectPrice (p :: q :: rest) installment_prices =
            listMin ((p :: q :: rest).filter
              (fun x => !(installment_prices.contains x))) := by
          rw [hsel, hv]
        constructor
        · intro _
          constructor
          · rw [hsel2, hv]
            exact listMin_mem (List.cons_ne_nil v vs)
          · intro x hx
            rw [hsel2, hv]
            exact listMin_le hx
        · intro h'
          exact absurd h' (List.cons_ne_nil v vs)
    · have hsel : pchomeSelectPrice (p :: q :: rest) installment_prices =
          listMin (p :: q :: rest) := by
        show (if installment_prices ≠ [] ∧
            listMin (p :: q :: rest) ∈ installment_prices then _ else _) = _
        rw [if_neg hin]
      have hnotin : listMin (p :: q :: rest) ∉ installment_prices ∨
          installment_prices = [] := by
        by_cases hi : installment_prices = []
        · exact Or.inr hi
        · exact Or.inl (fun hmem => hin ⟨hi, hmem⟩)
      have hminvalid : listMin (p :: q :: rest) ∈
          (p :: q :: rest).filter
            (fun x => !(installment_prices.contains x)) := by
        apply List.mem_filter.mpr
        refine ⟨listMin_mem (by simp), ?_⟩
        rcases hnotin with h' | h'
        · rw [contains_eq_false_of_not_mem h']
          rfl
        · subst h'
          rfl
      constructor
      · intro _
        refine ⟨by rw [hsel]; exact hminvalid, ?_⟩
        intro x hx
        rw [hsel]
        exact listMin_le (List.mem_filter.mp hx).1
      · intro h'
        rw [h'] at hminvalid
        exact absurd hminvalid (List.not_mem_nil _)

/-- C7 counterexample: a momo price text with two candidates — the code
keeps the larger one, while the claim's minimum-after-exclusions rule keeps
the smaller; the two disagree. -/
theorem c7_counterexample :
    momoPriceFromText "8,800 9,900" = 9900 ∧
      claimC7Price "8,800 9,900" [] = 8800 ∧
      momoPriceFromText "8,800 9,900" ≠ claimC7Price "8,800 9,900" [] :=
  ⟨by decide, by decide, by decide⟩

/-- C7 (amended): the momo parser takes the largest of the digit runs above
10 in the matched price text, with no installment handling; the PChome
parser collects per-price-block candidates, recording keyword-marked
blocks as installment amounts, and selects the minimum non-installment
candidate, falling back to the maximum when every candidate is an
installment amount. -/
theorem c7_price_extraction (t : String)
    (prices installment_prices : List Nat)
    (hm : momoCandidates t ≠ []) (hp : prices ≠ []) :
    (momoPriceFromText t ∈ momoCandidates t ∧
      ∀ x ∈ momoCandidates t, x ≤ momoPriceFromText t) ∧
      ((prices.filter (fun p => !(installment_prices.contains p)) ≠ [] →
        pchomeSelectPrice prices installment_prices ∈
          prices.filter (fun p => !(installment_prices.contains p)) ∧
        ∀ x ∈ prices.filter (fun p => !(installment_prices.contains p)),
          pchomeSelectPrice prices installment_prices ≤ x) ∧
      (prices.filter (fun p => !(installment_prices.contains p)) = [] →
        pchomeSelectPrice prices installment_prices = listMax prices ∧
        pchomeSelectPrice prices installment_prices ∈ prices)) :=
  ⟨momoPriceFromText_spec t hm,
    pchomeSelectPrice_spec prices installment_prices hp⟩

/-- Witness for C7 at a concrete momo text and concrete PChome candidate
lists. -/
theorem c7_price_extraction_witness :
    (momoCandidates "8,800 9,900" ≠ [] ∧ ([3000, 1500] : List Nat) ≠ []) ∧
      ((momoPriceFromText "8,800 9,900" ∈ momoCandidates "8,800 9,900" ∧
        ∀ x ∈ momoCandidates "8,800 9,900",
          x ≤ momoPriceFromText "8,800 9,900") ∧
      ((([3000, 1500] : List Nat).filter
            (fun p => !(([1500] : List Nat).contains p)) ≠ [] →
        pchomeSelectPrice [3000, 1500] [1500] ∈
          ([3000, 1500] : List Nat).filter
            (fun p => !(([1500] : List Nat).contains p)) ∧
        ∀ x ∈ ([3000, 1500] : List Nat).filter
            (fun p => !(([1500] : List Nat).contains p)),
          pchomeSelectPrice [3000, 1500] [1500] ≤ x) ∧
      (([3000, 1500] : List Nat).filter
            (fun p => !(([1500] : List Nat).contains p)) = [] →
        pchomeSelectPrice [3000, 1500] [1500] =
          listMax [3000, 1500] ∧
        pchomeSelectPrice [3000, 1500] [1500] ∈
          ([3000, 1500] : List Nat)))) :=
  ⟨⟨by decide, by decide⟩,
    c7_price_extraction "8,800 9,900" [3000, 1500] [1500] (by decide)
      (by decide)⟩

end PM
